import Mathlib

/-!
Verification of the shopify-sync repository core: a shallow embedding in Lean 4
of the change-detection engine (src/csv_processor/processor.py), the durable
update queue (src/database/queue_manager.py), the queue processor
(src/sync/queue_processor.py) and the bulk price API client
(src/shopify/api.py), together with theorems settling the spec's claims.

Modelling conventions:
- pandas rows become the structure ProductRow; numeric columns that the code
  coerces with pd.to_numeric are modelled as exact rationals (PRECIO) and
  integers (STOCK) for parseable values;
- Python dicts become association lists with Python-dict semantics
  (insert overwrites the existing key in place, otherwise appends);
- SQL tables become lists of records; SELECT ... fetchone is find?,
  UPDATE ... WHERE id is a map over the list, transactions are modelled by a
  connection carrying the committed state and the in-flight state.

The file is organised as definitions first, then all theorems.
-/

namespace ShopifySync

/-! # Definitions -/

/-- Python-dict lookup on an association list: first binding of the key. -/
def lookupKV {α β : Type} [DecidableEq α] : List (α × β) → α → Option β
  | [], _ => none
  | p :: rest, k => if p.1 = k then some p.2 else lookupKV rest k

/-- Membership of a key in an association list (Python: k in d). -/
def containsKey {α β : Type} [DecidableEq α] (l : List (α × β)) (k : α) : Bool :=
  (lookupKV l k).isSome

/-- Python-dict assignment d[k] = v: overwrite the binding in place if the key
is present, otherwise append a new binding. -/
def dinsert {α β : Type} [DecidableEq α] (l : List (α × β)) (k : α) (v : β) :
    List (α × β) :=
  if containsKey l k then l.map (fun p => if p.1 = k then (k, v) else p)
  else l ++ [(k, v)]

/-! ## Snapshot data model (src/csv_processor/processor.py)

A CSV snapshot row after the numeric coercions applied by the processor.
Only the columns the verified logic reads are carried. -/

structure ProductRow where
  referencia : String
  descripcion : String
  precio : ℚ
  stock : ℤ
  imagen1 : String
deriving DecidableEq, Repr

/-- Change record stored in the price_changes dict of detect_changes. -/
structure PriceChange where
  old_price : ℚ
  new_price : ℚ
  descripcion : String
deriving DecidableEq, Repr

/-- Change record stored in the stock_changes dict of detect_changes. -/
structure StockChange where
  old_stock : ℤ
  new_stock : ℤ
  descripcion : String
deriving DecidableEq, Repr

/-- First row of a snapshot with the given REFERENCIA
(pandas: df[df.REFERENCIA == ref].iloc[0], absent when the filter is empty). -/
def findRow (df : List ProductRow) (ref : String) : Option ProductRow :=
  df.find? (fun r => r.referencia == ref)

/-- Loop body of CSVProcessor.detect_changes: one current row compared with
the first previous row of the same REFERENCIA, updating the two change
dicts. -/
def detectStep (previous : List ProductRow)
    (acc : List (String × PriceChange) × List (String × StockChange))
    (row : ProductRow) :
    List (String × PriceChange) × List (String × StockChange) :=
  match findRow previous row.referencia with
  | none => acc
  | some prev_row =>
    let pc := if row.precio ≠ prev_row.precio
      then dinsert acc.1 row.referencia
        ⟨prev_row.precio, row.precio, row.descripcion⟩
      else acc.1
    let sc := if row.stock ≠ prev_row.stock
      then dinsert acc.2 row.referencia
        ⟨prev_row.stock, row.stock, row.descripcion⟩
      else acc.2
    (pc, sc)

/-- CSVProcessor.detect_changes (processor.py lines 181-230): iterate the rows
of the current snapshot; for each row whose REFERENCIA also occurs in the
previous snapshot, record a price change when PRECIO differs (exact
inequality) and a stock change when STOCK differs. -/
def detect_changes (current previous : List ProductRow) :
    List (String × PriceChange) × List (String × StockChange) :=
  current.foldl (detectStep previous) ([], [])

/-- CSVProcessor.detect_new_and_removed_products (processor.py lines 468-512):
rows of the current snapshot whose reference does not occur in the previous
snapshot, and rows of the previous snapshot whose reference does not occur in
the current snapshot. The dated CSV export of both sets is an observable side
effect not modelled here. -/
def detect_new_and_removed_products (current previous : List ProductRow) :
    List ProductRow × List ProductRow :=
  let current_refs := current.map (fun r => r.referencia)
  let previous_refs := previous.map (fun r => r.referencia)
  (current.filter (fun r => !(previous_refs.contains r.referencia)),
   previous.filter (fun r => !(current_refs.contains r.referencia)))

/-- Number of rows with STOCK equal to zero. -/
def zero_stock_count (df : List ProductRow) : Nat :=
  (df.filter (fun r => r.stock = 0)).length

/-- Percentage of rows with STOCK equal to zero. -/
def zero_stock_percent (df : List ProductRow) : ℚ :=
  ((zero_stock_count df : ℚ) / (df.length : ℚ)) * 100

/-- Percentage difference in row count versus the previous snapshot. -/
def diff_percent (df prev : List ProductRow) : ℚ :=
  (((df.length : ℚ) - (prev.length : ℚ)) / (prev.length : ℚ)) * 100

/-- CSVProcessor.validate_csv (processor.py lines 111-179), validity verdict.
An empty current snapshot, or an empty previous snapshot when one exists,
makes the percentage computations raise ZeroDivisionError, which the
enclosing handler turns into a False verdict; both appear here as explicit
emptiness branches. With no previous file diff_percent is taken as 0, so the
10% check always passes. -/
def validate_csv (df : List ProductRow) (prev : Option (List ProductRow)) : Bool :=
  if df.length = 0 then false
  else
    match prev with
    | some p =>
        if p.length = 0 then false
        else if zero_stock_percent df > 40 then false
        else if |diff_percent df p| > 10 then false
        else true
    | none =>
        if zero_stock_percent df > 40 then false
        else true

/-! ## Concrete snapshots for the scenario claims -/

/-- Previous snapshot of the spec scenario: A at 10.00 with stock 5. -/
def rowA_prev : ProductRow := ⟨"A", "descA", 10, 5, ""⟩

/-- Previous snapshot of the spec scenario: B at 20.00 with stock 0. -/
def rowB_prev : ProductRow := ⟨"B", "descB", 20, 0, ""⟩

/-- Current snapshot of the spec scenario: A at 10.01 with stock 5. -/
def rowA_cur : ProductRow := ⟨"A", "descA", 1001/100, 5, ""⟩

/-- Current snapshot of the spec scenario: B at 20.00 with stock 3. -/
def rowB_cur : ProductRow := ⟨"B", "descB", 20, 3, ""⟩

/-- Current snapshot of the spec scenario: C at 5.00 with stock 2, newly listed. -/
def rowC_cur : ProductRow := ⟨"C", "descC", 5, 2, ""⟩

/-- Previous snapshot of the spec scenario. -/
def scenario_prev : List ProductRow := [rowA_prev, rowB_prev]

/-- Current snapshot of the spec scenario. -/
def scenario_cur : List ProductRow := [rowA_cur, rowB_cur, rowC_cur]

/-- Snapshot row with zero stock, used for the validation-gate instances. -/
def zeroStockRow : ProductRow := ⟨"Z", "zero", 1, 0, ""⟩

/-- Snapshot row with positive stock, used for the validation-gate instances. -/
def posStockRow : ProductRow := ⟨"N", "pos", 1, 1, ""⟩

/-- Snapshot with 20 rows of which 9 (45%) have zero stock. -/
def df45 : List ProductRow :=
  List.replicate 9 zeroStockRow ++ List.replicate 11 posStockRow

/-- Snapshot with 100 rows of which 39 (39%) have zero stock. -/
def df39 : List ProductRow :=
  List.replicate 39 zeroStockRow ++ List.replicate 61 posStockRow

/-- Previous snapshot with 20 rows (zero row-count drift for df45). -/
def prev20 : List ProductRow := List.replicate 20 posStockRow

/-- Previous snapshot with 100 rows (zero row-count drift for df39). -/
def prev100 : List ProductRow := List.replicate 100 posStockRow

/-! ## Durable update queue (src/database/queue_manager.py)

The two SQL tables price_updates_queue and stock_updates_queue have the same
shape up to the value column (new_price respectively new_stock) and the code
of register_price_changes and register_stock_changes is identical up to those
column names, so the queue of one kind is modelled once, generically in the
value type V (V = ℚ for price, V = ℤ for stock). -/

/-- Task status column of the update queues. -/
inductive TStatus where
  | pending
  | processing
  | completed
  | error
deriving DecidableEq, Repr

/-- Row of price_updates_queue / stock_updates_queue. -/
structure QueueTask (V : Type) where
  id : Nat
  variant_mapping_id : Nat
  new_value : V
  status : TStatus
  created_at : Nat
  processed_at : Option Nat
deriving DecidableEq, Repr

/-- Row of the variant_mappings table, with the columns the core reads. -/
structure VariantMapping where
  id : Nat
  internal_sku : String
  shopify_product_id : Nat
  shopify_variant_id : Nat
  inventory_item_id : Option Nat
deriving DecidableEq, Repr

/-- Persistent state of one kind (price or stock): the history table rows
(reference, value, date), the queue table rows and the next auto-increment
queue id. -/
structure KindState (V : Type) where
  history : List (String × V × Nat)
  queue : List (QueueTask V)
  next_id : Nat
deriving Repr

/-- QueueManager.get_variant_id (queue_manager.py lines 194-200): id of the
variant_mappings row whose internal_sku equals the reference. -/
def get_variant_id (mappings : List VariantMapping) (reference : String) :
    Option Nat :=
  (mappings.find? (fun m => m.internal_sku == reference)).map (fun m => m.id)

/-- Update of the first list element satisfying p (SQL: fetchone followed by
UPDATE on the fetched row id). -/
def replaceFirst {α : Type} (p : α → Bool) (f : α → α) : List α → List α
  | [] => []
  | x :: xs => if p x then f x :: xs else x :: replaceFirst p f xs

/-- One loop iteration of QueueManager.register_price_changes /
register_stock_changes (queue_manager.py lines 23-94): resolve the variant
mapping (skip the reference when unresolved), upsert today's history row, then
coalesce into the queue: overwrite the value and reset the timestamp of an
existing pending task for the variant, otherwise insert a fresh pending
task. -/
def registerOne {V : Type} (mappings : List VariantMapping) (today now : Nat)
    (ks : KindState V) (ref : String) (v : V) : KindState V :=
  match get_variant_id mappings ref with
  | none => ks
  | some variant_id =>
    let history :=
      if (ks.history.find? (fun h => h.1 == ref && h.2.2 == today)).isSome
      then replaceFirst (fun h => h.1 == ref && h.2.2 == today)
        (fun _ => (ref, v, today)) ks.history
      else ks.history ++ [(ref, v, today)]
    match ks.queue.find? (fun t =>
        t.variant_mapping_id == variant_id && t.status == TStatus.pending) with
    | some t =>
        { history := history,
          queue := ks.queue.map (fun u =>
            if u.id = t.id then { u with new_value := v, created_at := now } else u),
          next_id := ks.next_id }
    | none =>
        { history := history,
          queue := ks.queue ++ [⟨ks.next_id, variant_id, v, TStatus.pending, now, none⟩],
          next_id := ks.next_id + 1 }

/-- Loop of register_price_changes / register_stock_changes over one change
dict, in iteration order. -/
def registerChanges {V : Type} (mappings : List VariantMapping) (today now : Nat)
    (ks : KindState V) (chs : List (String × V)) : KindState V :=
  chs.foldl (fun s c => registerOne mappings today now s c.1 c.2) ks

/-- Whole database state: the variant directory and both queues. -/
structure DB where
  mappings : List VariantMapping
  price : KindState ℚ
  stock : KindState ℤ
deriving Repr

/-- State effect of a successful QueueManager.register_price_changes call. -/
def register_price_changes_state (db : DB) (today now : Nat)
    (chs : List (String × ℚ)) : DB :=
  { db with price := registerChanges db.mappings today now db.price chs }

/-- State effect of a successful QueueManager.register_stock_changes call. -/
def register_stock_changes_state (db : DB) (today now : Nat)
    (chs : List (String × ℤ)) : DB :=
  { db with stock := registerChanges db.mappings today now db.stock chs }

/-- Database connection as seen by one enqueue call: the durably committed
state and the in-flight state of the open transaction. -/
structure Conn (V : Type) where
  committed : KindState V
  current : KindState V
deriving Repr

/-- Transactional run of one register_price_changes / register_stock_changes
call (queue_manager.py lines 22-102). All statements execute on the in-flight
state; db.commit() at the end of the loop publishes it. failAt = some k
models an exception thrown after k loop iterations (k not below the list
length: at commit time); the except handler calls db.rollback(), which
discards the in-flight state, and the call returns False. failAt = none is
the exception-free run, which commits and returns True. -/
def runEnqueue {V : Type} (mappings : List VariantMapping) (today now : Nat) :
    Conn V → List (String × V) → Option Nat → Conn V × Bool
  | conn, _, some 0 => (⟨conn.committed, conn.committed⟩, false)
  | conn, [], none => (⟨conn.current, conn.current⟩, true)
  | conn, [], some (_ + 1) => (⟨conn.committed, conn.committed⟩, false)
  | conn, c :: rest, none =>
      runEnqueue mappings today now
        ⟨conn.committed, registerOne mappings today now conn.current c.1 c.2⟩
        rest none
  | conn, c :: rest, some (k + 1) =>
      runEnqueue mappings today now
        ⟨conn.committed, registerOne mappings today now conn.current c.1 c.2⟩
        rest (some k)

/-- Pending queue tasks of one variant. -/
def pendingTasksFor {V : Type} (ks : KindState V) (vid : Nat) :
    List (QueueTask V) :=
  ks.queue.filter (fun t =>
    t.variant_mapping_id == vid && t.status == TStatus.pending)

/-- Values of the pending queue tasks of one variant. -/
def pendingValues {V : Type} (ks : KindState V) (vid : Nat) : List V :=
  (pendingTasksFor ks vid).map (fun t => t.new_value)

/-- Queue invariant claimed by the spec: at most one pending task per variant. -/
def InvOnePending {V : Type} (ks : KindState V) : Prop :=
  ∀ vid, (pendingTasksFor ks vid).length ≤ 1

/-- Structural well-formedness of the queue table: primary-key ids are
distinct and below the auto-increment counter. -/
def QueueWF {V : Type} (ks : KindState V) : Prop :=
  (ks.queue.map (fun t => t.id)).Nodup ∧ ∀ t ∈ ks.queue, t.id < ks.next_id

/-! ## Discontinued-product detection (processor.py lines 232-346)

File-system access is abstracted as a store mapping the day offset i (the
loop variable, day D-i) to that day's last CSV snapshot together with the
day's date label, when the day folder holds at least one CSV file. -/

/-- Entry of the discontinued dict built by detect_discontinued_products. -/
structure DiscInfo where
  referencia : String
  descripcion : String
  imagen : String
  first_missing_date : String
  last_price : ℚ
  last_stock : ℤ
  dias_ausente : Nat
deriving DecidableEq, Repr

/-- Body of the inner loop over the missing references of one historical
snapshot: first sighting inserts the row data with one day of absence, later
sightings increment the absence counter. -/
def discInsert (df : List ProductRow) (date : String)
    (disc : List (String × DiscInfo)) (ref : String) :
    List (String × DiscInfo) :=
  match findRow df ref with
  | none => disc
  | some row =>
    match lookupKV disc ref with
    | none => dinsert disc ref
        ⟨ref, row.descripcion, row.imagen1, date, row.precio, row.stock, 1⟩
    | some info => dinsert disc ref
        { info with dias_ausente := info.dias_ausente + 1 }

/-- Processing of one historical snapshot: the references it lists that are
absent from the current snapshot (a set in the source, hence deduplicated)
are folded into the discontinued dict. -/
def discStep (current_refs : List String) (disc : List (String × DiscInfo))
    (fd : List ProductRow × String) : List (String × DiscInfo) :=
  let missing := (fd.1.map (fun r => r.referencia)).dedup.filter
    (fun r => !(current_refs.contains r))
  missing.foldl (discInsert fd.1 fd.2) disc

/-- Historical snapshots located by the day loop: for i from 1 to
days_threshold + 1 (Python: range(1, days_threshold + 2)), the day D-i
snapshot if that day has one, in order. -/
def scanFiles (store : Nat → Option (List ProductRow × String))
    (days_threshold : Nat) : List (List ProductRow × String) :=
  (List.range' 1 (days_threshold + 1)).filterMap store

/-- CSVProcessor.detect_discontinued_products: scan the last
days_threshold + 1 calendar days before today; with fewer than days_threshold
located snapshots return the empty dict; otherwise accumulate absence counts
over the located snapshots and keep the references absent for at least
days_threshold days. -/
def detect_discontinued_products (current_refs : List String)
    (store : Nat → Option (List ProductRow × String))
    (days_threshold : Nat) : List (String × DiscInfo) :=
  let files := scanFiles store days_threshold
  if files.length < days_threshold then []
  else
    (files.foldl (discStep current_refs) []).filter
      (fun p => decide (days_threshold ≤ p.2.dias_ausente))

/-- Number of located historical snapshots that list the reference. -/
def filesContaining (files : List (List ProductRow × String)) (ref : String) :
    Nat :=
  (files.filter
    (fun fd => (fd.1.map (fun r => r.referencia)).contains ref)).length

/-- Historical row for a reference present on every scanned day. -/
def c3rowA : ProductRow := ⟨"A", "a", 1, 1, ""⟩

/-- Historical row for the reference X of the C3 scenario. -/
def c3rowX : ProductRow := ⟨"X", "x", 2, 1, ""⟩

/-- Snapshot store of the C3 counterexample: days D-1..D-3 have snapshots
without X, day D-4 has a snapshot with X. -/
def c3store : Nat → Option (List ProductRow × String) :=
  fun i =>
    if i ≤ 3 then some ([c3rowA], "d")
    else if i = 4 then some ([c3rowA, c3rowX], "d4")
    else none

/-- Snapshot store whose four scanned days all list X. -/
def c3storeAll : Nat → Option (List ProductRow × String) :=
  fun i => if i ≤ 4 then some ([c3rowA, c3rowX], "d") else none

/-- Concrete variant directory with one mapping, for witness instances. -/
def wMappings : List VariantMapping := [⟨1, "R1", 10, 100, some 7⟩]

/-- Concrete empty-queue database over wMappings, for witness instances. -/
def wDB : DB := ⟨wMappings, ⟨[], [], 0⟩, ⟨[], [], 0⟩⟩

/-! ## Queue processor (src/sync/queue_processor.py) and API client
(src/shopify/api.py)

The rate-limit sleeps and logging are timing/observability concerns with no
state effect and are not modelled. The Shopify GraphQL call itself is
abstracted: for the processor as a verdict function passed in (the claims
exercise it with always-success and always-failure simulations), and for the
API client as the response outcome of the one request it makes. -/

/-- Row fetched by QueueProcessor.get_pending_price_updates: pending or error
price tasks joined with the variant mapping, oldest first, limited to the
batch size. -/
structure FetchedPrice where
  queue_id : Nat
  variant_mapping_id : Nat
  new_price : ℚ
  shopify_product_id : Nat
  shopify_variant_id : Nat
  status : TStatus
deriving DecidableEq, Repr

/-- Row fetched by QueueProcessor.get_pending_stock_updates. -/
structure FetchedStock where
  queue_id : Nat
  variant_mapping_id : Nat
  new_stock : ℤ
  inventory_item_id : Option Nat
  internal_sku : String
  status : TStatus
  created_at : Nat
deriving DecidableEq, Repr

/-- Insertion step of the created_at ordering (SQL ORDER BY created_at). -/
def insertByCreated {V : Type} (t : QueueTask V) :
    List (QueueTask V) → List (QueueTask V)
  | [] => [t]
  | u :: us =>
      if t.created_at ≤ u.created_at then t :: u :: us
      else u :: insertByCreated t us

/-- Sort of the queue rows by created_at (SQL ORDER BY created_at). -/
def sortByCreated {V : Type} : List (QueueTask V) → List (QueueTask V)
  | [] => []
  | t :: ts => insertByCreated t (sortByCreated ts)

/-- Variant-mappings row joined on its id (SQL JOIN variant_mappings vm ON
... = vm.id). -/
def findMapping (mappings : List VariantMapping) (vid : Nat) :
    Option VariantMapping :=
  mappings.find? (fun m => m.id == vid)

/-- Selection predicate of both fetch queries:
WHERE status IN ('pending', 'error'). -/
def pendingOrError {V : Type} (t : QueueTask V) : Bool :=
  t.status == TStatus.pending || t.status == TStatus.error

/-- QueueProcessor.get_pending_price_updates (queue_processor.py lines
29-56): pending/error price tasks inner-joined with variant_mappings,
ordered by created_at, limited to batch_size. -/
def get_pending_price_updates (mappings : List VariantMapping)
    (ks : KindState ℚ) (batch_size : Nat) : List FetchedPrice :=
  ((sortByCreated (ks.queue.filter pendingOrError)).filterMap
    (fun t => (findMapping mappings t.variant_mapping_id).map
      (fun m => ⟨t.id, t.variant_mapping_id, t.new_value,
        m.shopify_product_id, m.shopify_variant_id, t.status⟩))).take batch_size

/-- QueueProcessor.get_pending_stock_updates (queue_processor.py lines
58-119): pending/error stock tasks inner-joined with variant_mappings,
ordered by created_at, limited to batch_size. The two advisory integrity
queries only log and have no state effect. -/
def get_pending_stock_updates (mappings : List VariantMapping)
    (ks : KindState ℤ) (batch_size : Nat) : List FetchedStock :=
  ((sortByCreated (ks.queue.filter pendingOrError)).filterMap
    (fun t => (findMapping mappings t.variant_mapping_id).map
      (fun m => ⟨t.id, t.variant_mapping_id, t.new_value,
        m.inventory_item_id, m.internal_sku, t.status, t.created_at⟩))).take
    batch_size

/-- Bulk request item built by process_price_updates for one fetched task:
the queued new_price is passed as the cost. -/
structure PriceReq where
  product_id : Nat
  variant_id : Nat
  cost : ℚ
  queue_id : Nat
deriving DecidableEq, Repr

/-- Request item of a fetched price task (queue_processor.py lines 140-145):
cost is the queued new_price. -/
def toPriceReq (u : FetchedPrice) : PriceReq :=
  ⟨u.shopify_product_id, u.shopify_variant_id, u.new_price, u.queue_id⟩

/-- Grouping of the fetched batch by shopify_product_id in first-seen order
(Python dict of lists, queue_processor.py lines 135-145). -/
def groupReqs (fetched : List FetchedPrice) : List (Nat × List PriceReq) :=
  fetched.foldl (fun acc u =>
    if containsKey acc u.shopify_product_id then
      acc.map (fun g =>
        if g.1 = u.shopify_product_id then (g.1, g.2 ++ [toPriceReq u]) else g)
    else acc ++ [(u.shopify_product_id, [toPriceReq u])]) []

/-- SQL UPDATE of one queue row by id: SET status, processed_at =
CURRENT_TIMESTAMP WHERE id = queue_id. -/
def setTaskStatus {V : Type} (q : List (QueueTask V)) (qid : Nat)
    (st : TStatus) (now : Nat) : List (QueueTask V) :=
  q.map (fun t =>
    if t.id = qid then { t with status := st, processed_at := some now } else t)

/-- Python: status = 'completed' if results.get(str(variant_id)) else
'error' (missing key and False both count as failure). -/
def statusOfResult (results : List (String × Bool)) (variant_id : Nat) :
    TStatus :=
  match lookupKV results (toString variant_id) with
  | some true => TStatus.completed
  | _ => TStatus.error

/-- PRICE_MARGIN configuration read by process_price_updates:
float(os.getenv('PRICE_MARGIN', 2.5)). -/
def priceMargin (env : Option ℚ) : ℚ := env.getD (5/2)

/-- QueueProcessor.process_price_updates (queue_processor.py lines 122-177):
fetch a batch, group it by product, issue one bulk call per group (the api
argument abstracts ShopifyAPI.bulk_price_update, which receives the group's
requests and the configured margin and returns per-variant verdicts keyed by
str(variant_id)), and write each task's terminal status back by queue id. -/
def process_price_updates (api : List PriceReq → ℚ → List (String × Bool))
    (env_margin : Option ℚ) (mappings : List VariantMapping)
    (ks : KindState ℚ) (batch_size now : Nat) : KindState ℚ :=
  let fetched := get_pending_price_updates mappings ks batch_size
  let margin := priceMargin env_margin
  let groups := groupReqs fetched
  { ks with
    queue := groups.foldl (fun q g =>
      let results := api g.2 margin
      g.2.foldl (fun q v =>
        setTaskStatus q v.queue_id (statusOfResult results v.variant_id) now)
        q) ks.queue }

/-- QueueProcessor.process_stock_updates (queue_processor.py lines 179-213):
fetch a batch and process one task at a time (the api argument abstracts
ShopifyAPI.update_inventory_quantity over inventory item, location and
desired quantity), committing each task's terminal status immediately. -/
def process_stock_updates (api : Option Nat → Option Nat → ℤ → Bool)
    (location : Option Nat) (mappings : List VariantMapping)
    (ks : KindState ℤ) (batch_size now : Nat) : KindState ℤ :=
  let fetched := get_pending_stock_updates mappings ks batch_size
  { ks with
    queue := fetched.foldl (fun q u =>
      let st := if api u.inventory_item_id location u.new_stock
        then TStatus.completed else TStatus.error
      setTaskStatus q u.queue_id st now) ks.queue }

/-- Simulated always-success bulk price API. -/
def alwaysSuccessPriceApi : List PriceReq → ℚ → List (String × Bool) :=
  fun reqs _ => reqs.map (fun u => (toString u.variant_id, true))

/-- Simulated always-failure bulk price API. -/
def alwaysFailPriceApi : List PriceReq → ℚ → List (String × Bool) :=
  fun reqs _ => reqs.map (fun u => (toString u.variant_id, false))

/-- Simulated always-success inventory API. -/
def alwaysSuccessStockApi : Option Nat → Option Nat → ℤ → Bool :=
  fun _ _ _ => true

/-- Simulated always-failure inventory API. -/
def alwaysFailStockApi : Option Nat → Option Nat → ℤ → Bool :=
  fun _ _ _ => false

/-- Batch status write over a set of queue ids; the two processing loops are
proved equal to it when every verdict is the same. -/
def multiSetStatus {V : Type} (q : List (QueueTask V)) (ids : List Nat)
    (st : TStatus) (now : Nat) : List (QueueTask V) :=
  q.map (fun t =>
    if ids.contains t.id then { t with status := st, processed_at := some now }
    else t)

/-! ## Shopify bulk price API client (api.py) -/

/-- Rounding to two decimals (Python round(x, 2)). -/
def round2 (q : ℚ) : ℚ := (round (q * 100) : ℤ) / 100

/-- Variant payload of the productVariantsBulkUpdate mutation. -/
structure VariantPayload where
  variant_id : Nat
  price : ℚ
  compareAtPrice : ℚ
  cost : ℚ
deriving DecidableEq, Repr

/-- Payload built by ShopifyAPI.bulk_price_update for one update (api.py
lines 330-350): price is cost × margin rounded to two decimals; with a
positive discount the price is discounted and compareAtPrice keeps the
undiscounted price, otherwise compareAtPrice equals the price; the raw cost
is attached to the inventory item. -/
def variantPayload (margin discount : ℚ) (u : PriceReq) : VariantPayload :=
  let original_price := round2 (u.cost * margin)
  if discount > 0 then
    ⟨u.variant_id, round2 (original_price * (1 - discount / 100)),
      original_price, u.cost⟩
  else
    ⟨u.variant_id, original_price, original_price, u.cost⟩

/-- Request payload list of ShopifyAPI.bulk_price_update. -/
def bulkPriceVariantsData (variant_updates : List PriceReq)
    (margin discount : ℚ) : List VariantPayload :=
  variant_updates.map (variantPayload margin discount)

/-- Outcome of the one GraphQL request made by bulk_price_update: the
response's userErrors and updated-variant gids, or an exception (network
error, GraphQL errors entry, missing product id for an empty update list). -/
inductive BulkOutcome where
  | exn
  | ok (userErrors : List String) (updatedVariantGids : List String)

/-- Last path component of a gid (Python str(v['id']).split('/')[-1]). -/
def lastComponent (s : String) : String := (s.splitOn "/").getLast?.getD ""

/-- Verdict dictionary of ShopifyAPI.bulk_price_update (api.py lines
360-387): keyed by str(variant_id); all False when the response carries
userErrors or the request raised; otherwise a variant succeeds exactly when
its id is the last path component of one of the returned variant gids. -/
def bulk_price_update (variant_updates : List PriceReq)
    (outcome : BulkOutcome) : List (String × Bool) :=
  match outcome with
  | BulkOutcome.exn =>
      variant_updates.map (fun u => (toString u.variant_id, false))
  | BulkOutcome.ok userErrors updated =>
      if userErrors = [] then
        variant_updates.map (fun u => (toString u.variant_id,
          updated.any (fun g => lastComponent g == toString u.variant_id)))
      else
        variant_updates.map (fun u => (toString u.variant_id, false))

/-- Concrete pending price task, for witness instances. -/
def wTaskP : QueueTask ℚ := ⟨1, 1, 5, TStatus.pending, 0, none⟩

/-- Concrete price kind state holding one pending task. -/
def wKSp : KindState ℚ := ⟨[], [wTaskP], 2⟩

/-- Concrete pending stock task, for witness instances. -/
def wTaskS : QueueTask ℤ := ⟨1, 1, 4, TStatus.pending, 0, none⟩

/-- Concrete stock kind state holding one pending task. -/
def wKSs : KindState ℤ := ⟨[], [wTaskS], 2⟩

/-- The joined row the processor fetches for wTaskP over wMappings. -/
def wFetchedP : FetchedPrice := ⟨1, 1, 5, 10, 100, TStatus.pending⟩

/-- wTaskP after a successful processing cycle at time 9. -/
def wDoneTaskP : QueueTask ℚ := ⟨1, 1, 5, TStatus.completed, 0, some 9⟩

/-! # Theorems -/

/-! ## Association-list lemmas -/

theorem lookupKV_nil {α β : Type} [DecidableEq α] (k : α) :
    lookupKV ([] : List (α × β)) k = none := rfl

theorem lookupKV_cons {α β : Type} [DecidableEq α] (p : α × β) (l : List (α × β)) (k : α) :
    lookupKV (p :: l) k = if p.1 = k then some p.2 else lookupKV l k := rfl

theorem lookupKV_append {α β : Type} [DecidableEq α] (l₁ l₂ : List (α × β)) (k : α) :
    lookupKV (l₁ ++ l₂) k =
      match lookupKV l₁ k with
      | some v => some v
      | none => lookupKV l₂ k := by
  induction l₁ with
  | nil => simp [lookupKV]
  | cons p rest ih =>
      by_cases h : p.1 = k <;> simp [lookupKV, h, ih]

theorem lookupKV_map_replace {α β : Type} [DecidableEq α]
    (l : List (α × β)) (k : α) (v : β) (k' : α) (hne : k' ≠ k) :
    lookupKV (l.map (fun p => if p.1 = k then (k, v) else p)) k' = lookupKV l k' := by
  induction l with
  | nil => rfl
  | cons p rest ih =>
      simp only [List.map_cons]
      by_cases h : p.1 = k
      · rw [if_pos h, lookupKV_cons, lookupKV_cons]
        rw [if_neg (fun hk : k = k' => hne hk.symm),
          if_neg (fun hp : p.1 = k' => hne ((hp.symm.trans h)))]
        exact ih
      · rw [if_neg h, lookupKV_cons, lookupKV_cons]
        by_cases h2 : p.1 = k' <;> simp [h2, ih]

theorem lookupKV_dinsert_self {α β : Type} [DecidableEq α]
    (l : List (α × β)) (k : α) (v : β) :
    lookupKV (dinsert l k v) k = some v := by
  unfold dinsert
  by_cases h : containsKey l k
  · simp only [h, if_pos]
    unfold containsKey at h
    induction l with
    | nil => simp [lookupKV] at h
    | cons p rest ih =>
        by_cases hp : p.1 = k
        · simp [lookupKV, hp]
        · simp only [lookupKV_cons, hp, if_neg, not_false_iff] at h
          simp [lookupKV, hp, ih h]
  · simp only [h, if_neg, not_false_iff, Bool.not_eq_true]
    rw [lookupKV_append]
    unfold containsKey at h
    cases hl : lookupKV l k with
    | some v' => rw [hl] at h; simp at h
    | none => simp [lookupKV]

theorem lookupKV_dinsert_ne {α β : Type} [DecidableEq α]
    (l : List (α × β)) (k : α) (v : β) (k' : α) (hne : k' ≠ k) :
    lookupKV (dinsert l k v) k' = lookupKV l k' := by
  unfold dinsert
  by_cases h : containsKey l k
  · simp only [h, if_pos]
    exact lookupKV_map_replace l k v k' hne
  · simp only [h, if_neg, not_false_iff, Bool.not_eq_true]
    rw [lookupKV_append]
    cases hl : lookupKV l k' with
    | some v' => simp
    | none =>
        simp only [lookupKV]
        rw [if_neg (fun hk : k = k' => hne hk.symm)]

theorem containsKey_dinsert_self {α β : Type} [DecidableEq α]
    (l : List (α × β)) (k : α) (v : β) :
    containsKey (dinsert l k v) k = true := by
  unfold containsKey
  rw [lookupKV_dinsert_self]
  rfl

theorem containsKey_dinsert_ne {α β : Type} [DecidableEq α]
    (l : List (α × β)) (k : α) (v : β) (k' : α) (hne : k' ≠ k) :
    containsKey (dinsert l k v) k' = containsKey l k' := by
  unfold containsKey
  rw [lookupKV_dinsert_ne l k v k' hne]

/-! ## findRow lemmas -/

theorem findRow_some {df : List ProductRow} {ref : String} {c : ProductRow}
    (h : findRow df ref = some c) : c ∈ df ∧ c.referencia = ref := by
  unfold findRow at h
  refine ⟨List.mem_of_find?_eq_some h, ?_⟩
  have h2 := List.find?_some h
  simpa using h2

theorem findRow_eq_of_mem_nodup {df : List ProductRow} {row : ProductRow} {ref : String}
    (hnd : (df.map (fun x => x.referencia)).Nodup)
    (hmem : row ∈ df) (href : row.referencia = ref) :
    findRow df ref = some row := by
  induction df with
  | nil => cases hmem
  | cons hd tl ih =>
      have hnd2 : hd.referencia ∉ (tl.map (fun x => x.referencia)) ∧
          (tl.map (fun x => x.referencia)).Nodup := by
        rw [List.map_cons] at hnd
        exact List.nodup_cons.mp hnd
      rcases List.mem_cons.mp hmem with hrow | hrow
      · subst hrow
        unfold findRow
        rw [List.find?_cons_of_pos _ (by simp [href])]
      · by_cases hhd : hd.referencia = ref
        · exfalso
          apply hnd2.1
          rw [hhd, ← href]
          exact List.mem_map_of_mem (fun x => x.referencia) hrow
        · unfold findRow
          rw [List.find?_cons_of_neg _ (by simp [hhd])]
          exact ih hnd2.2 hrow

/-! ## detect_changes characterization -/

theorem containsKey_detectStep_price (previous : List ProductRow)
    (acc : List (String × PriceChange) × List (String × StockChange))
    (row : ProductRow) (r : String) :
    containsKey (detectStep previous acc row).1 r = true ↔
      (containsKey acc.1 r = true ∨
        (row.referencia = r ∧
          ∃ p, findRow previous r = some p ∧ row.precio ≠ p.precio)) := by
  unfold detectStep
  cases hfind : findRow previous row.referencia with
  | none =>
      simp only []
      constructor
      · intro h; exact Or.inl h
      · rintro (h | ⟨hr, p, hp, _⟩)
        · exact h
        · rw [hr] at hfind; rw [hfind] at hp; cases hp
  | some p =>
      simp only []
      by_cases hpe : row.precio = p.precio
      · rw [if_neg (by simpa using hpe)]
        constructor
        · intro h; exact Or.inl h
        · rintro (h | ⟨hr, p', hp', hne'⟩)
          · exact h
          · exfalso
            rw [hr] at hfind
            rw [hfind] at hp'
            cases hp'
            exact hne' hpe
      · rw [if_pos (by simpa using hpe)]
        by_cases hr : row.referencia = r
        · subst hr
          rw [containsKey_dinsert_self]
          constructor
          · intro _
            exact Or.inr ⟨rfl, p, hfind, hpe⟩
          · intro _; rfl
        · rw [containsKey_dinsert_ne _ _ _ _ (fun h => hr h.symm)]
          constructor
          · intro h; exact Or.inl h
          · rintro (h | ⟨hr', _⟩)
            · exact h
            · exact absurd hr' hr

theorem containsKey_detect_foldl_price (previous : List ProductRow) :
    ∀ (cur : List ProductRow)
      (acc : List (String × PriceChange) × List (String × StockChange)) (r : String),
    containsKey ((cur.foldl (detectStep previous) acc).1) r = true ↔
      (containsKey acc.1 r = true ∨
        ∃ row, row ∈ cur ∧ row.referencia = r ∧
          ∃ p, findRow previous r = some p ∧ row.precio ≠ p.precio) := by
  intro cur
  induction cur with
  | nil =>
      intro acc r
      simp
  | cons row rest ih =>
      intro acc r
      rw [List.foldl_cons, ih]
      rw [containsKey_detectStep_price]
      constructor
      · rintro ((h | ⟨hr, p, hp, hne⟩) | ⟨row', hmem, hr', hp'⟩)
        · exact Or.inl h
        · exact Or.inr ⟨row, List.mem_cons_self _ _, hr, p, hp, hne⟩
        · exact Or.inr ⟨row', List.mem_cons_of_mem _ hmem, hr', hp'⟩
      · rintro (h | ⟨row', hmem, hr', hp'⟩)
        · exact Or.inl (Or.inl h)
        · rcases List.mem_cons.mp hmem with heq | hmem'
          · subst heq
            exact Or.inl (Or.inr ⟨hr', hp'⟩)
          · exact Or.inr ⟨row', hmem', hr', hp'⟩

/-- C1 counterexample. The claim states that detect_changes flags a price
change only when the absolute difference exceeds 0.01: with a previous price
of 10.00 and a current price of 10.01 the difference is exactly 0.01, which
the claim counts as unchanged, yet detect_changes (which compares with exact
inequality) reports the reference as changed. -/
theorem C1_counterexample_epsilon_not_applied :
    containsKey
      (detect_changes [⟨"A", "d", 1001/100, 5, ""⟩] [⟨"A", "d", 10, 5, ""⟩]).1
      "A" = true ∧
    ¬ (|(1001 : ℚ)/100 - 10| > 1/100) := by
  constructor
  · norm_num [detect_changes, detectStep, findRow, List.find?, dinsert, containsKey,
      lookupKV, List.foldl]
  · norm_num [abs_le]

/-- C1 (amended). For snapshots whose current reference column has no
duplicates, the price-change set of CSVProcessor.detect_changes contains a
reference r iff r occurs in both snapshots and its current price differs from
its previous price by exact inequality; no epsilon tolerance is applied (the
0.01 tolerance exists only in the separate Shopify-inventory comparison
module, not in detect_changes). -/
theorem C1_detect_changes_price_iff (cur prev : List ProductRow) (r : String)
    (hnd : (cur.map (fun x => x.referencia)).Nodup) :
    containsKey (detect_changes cur prev).1 r = true ↔
      ∃ c, findRow cur r = some c ∧
        ∃ p, findRow prev r = some p ∧ c.precio ≠ p.precio := by
  unfold detect_changes
  rw [containsKey_detect_foldl_price]
  constructor
  · rintro (h | ⟨row, hmem, hr, p, hp, hne⟩)
    · simp [containsKey, lookupKV] at h
    · exact ⟨row, findRow_eq_of_mem_nodup hnd hmem hr, p, hp, hne⟩
  · rintro ⟨c, hc, p, hp, hne⟩
    obtain ⟨hmem, href⟩ := findRow_some hc
    exact Or.inr ⟨c, hmem, href, p, hp, hne⟩

/-- C1 witness: the amended equivalence evaluated on a concrete pair of
one-row snapshots where the price moved from 2 to 3. -/
theorem C1_witness :
    (([⟨"A", "a", 3, 1, ""⟩] : List ProductRow).map (fun x => x.referencia)).Nodup ∧
    (containsKey
        (detect_changes [⟨"A", "a", 3, 1, ""⟩] [⟨"A", "a", 2, 1, ""⟩]).1 "A" = true ↔
      ∃ c, findRow [⟨"A", "a", 3, 1, ""⟩] "A" = some c ∧
        ∃ p, findRow [⟨"A", "a", 2, 1, ""⟩] "A" = some p ∧ c.precio ≠ p.precio) :=
  ⟨by decide,
   C1_detect_changes_price_iff [⟨"A", "a", 3, 1, ""⟩] [⟨"A", "a", 2, 1, ""⟩] "A"
     (by decide)⟩

/-- C6 counterexample. On the spec scenario (previous A:10.00/5 B:20.00/0,
current A:10.01/5 B:20.00/3 C:5.00/2) the claim says priceChanges is empty
because A moved by only 0.01, but detect_changes compares prices with exact
inequality and returns a non-empty price-change set containing A. -/
theorem C6_counterexample_scenario_price_nonempty :
    (detect_changes scenario_cur scenario_prev).1 ≠ [] ∧
    containsKey (detect_changes scenario_cur scenario_prev).1 "A" = true := by
  refine ⟨?_, ?_⟩ <;>
    norm_num [scenario_cur, scenario_prev, rowA_cur, rowB_cur, rowC_cur, rowA_prev,
      rowB_prev, detect_changes, detectStep, findRow, List.find?, dinsert,
      containsKey, lookupKV, List.foldl,
      show (("A" : String) == "B") = false from by decide,
      show (("A" : String) == "C") = false from by decide,
      show (("B" : String) == "C") = false from by decide,
      show (("B" : String) == "A") = false from by decide,
      show (("C" : String) == "A") = false from by decide,
      show (("C" : String) == "B") = false from by decide,
      show ("A" : String) ≠ "B" from by decide,
      show ("A" : String) ≠ "C" from by decide,
      show ("B" : String) ≠ "C" from by decide,
      show ("B" : String) ≠ "A" from by decide,
      show ("C" : String) ≠ "A" from by decide,
      show ("C" : String) ≠ "B" from by decide]

/-- C6 (amended). On the spec scenario the detector returns
priceChanges = {A: 10.00 → 10.01} (A is flagged because comparison is exact,
not epsilon-based), stockChanges = {B: 0 → 3}, newProducts = {C} and
removedProducts = {}. -/
theorem C6_scenario_results :
    (detect_changes scenario_cur scenario_prev).1 =
      [("A", ⟨10, 1001/100, "descA"⟩)] ∧
    (detect_changes scenario_cur scenario_prev).2 =
      [("B", ⟨0, 3, "descB"⟩)] ∧
    (detect_new_and_removed_products scenario_cur scenario_prev).1 = [rowC_cur] ∧
    (detect_new_and_removed_products scenario_cur scenario_prev).2 = [] := by
  refine ⟨?_, ?_, ?_, ?_⟩ <;>
    norm_num [scenario_cur, scenario_prev, rowA_cur, rowB_cur, rowC_cur, rowA_prev,
      rowB_prev, detect_changes, detectStep, findRow, List.find?, dinsert,
      containsKey, lookupKV, List.foldl, detect_new_and_removed_products,
      List.filter, List.contains,
      show (("A" : String) == "B") = false from by decide,
      show (("A" : String) == "C") = false from by decide,
      show (("B" : String) == "C") = false from by decide,
      show (("B" : String) == "A") = false from by decide,
      show (("C" : String) == "A") = false from by decide,
      show (("C" : String) == "B") = false from by decide,
      show ("A" : String) ≠ "B" from by decide,
      show ("A" : String) ≠ "C" from by decide,
      show ("B" : String) ≠ "C" from by decide,
      show ("B" : String) ≠ "A" from by decide,
      show ("C" : String) ≠ "A" from by decide,
      show ("C" : String) ≠ "B" from by decide]

/-- C5. For a non-empty snapshot and a non-empty previous snapshot,
CSVProcessor.validate_csv accepts exactly when the zero-stock percentage does
not exceed 40 and the absolute row-count drift percentage does not exceed 10;
the claim's instances (45% zero stock rejected, 39% accepted at zero drift)
are evaluated in the witness. -/
theorem C5_validate_csv_iff (df prev : List ProductRow)
    (hdf : df ≠ []) (hprev : prev ≠ []) :
    validate_csv df (some prev) = true ↔
      ¬(zero_stock_percent df > 40) ∧ ¬(|diff_percent df prev| > 10) := by
  unfold validate_csv
  rw [if_neg (by simpa [List.length_eq_zero] using hdf)]
  simp only []
  rw [if_neg (by simpa [List.length_eq_zero] using hprev)]
  by_cases h40 : zero_stock_percent df > 40
  · simp [h40]
  · rw [if_neg h40]
    by_cases h10 : |diff_percent df prev| > 10
    · simp [h40, h10]
    · simp [h40, h10]

/-- C5 witness: the 39% zero-stock snapshot with zero drift is accepted via
the equivalence, and the 45% one is rejected. -/
theorem C5_witness :
    validate_csv df39 (some prev100) = true ∧
    validate_csv df45 (some prev20) = false :=
  ⟨(C5_validate_csv_iff df39 prev100 (by decide) (by decide)).mpr
    (by norm_num [zero_stock_percent, zero_stock_count, diff_percent, df39, prev100,
      zeroStockRow, posStockRow, List.replicate, List.filter]),
   by norm_num [validate_csv, zero_stock_percent, zero_stock_count, diff_percent,
      df45, prev20, zeroStockRow, posStockRow, List.replicate, List.filter]⟩

/-! ## Transactional enqueue lemmas -/

theorem runEnqueue_some_rollback {V : Type} (mappings : List VariantMapping)
    (today now : Nat) :
    ∀ (chs : List (String × V)) (conn : Conn V) (k : Nat),
    runEnqueue mappings today now conn chs (some k) =
      (⟨conn.committed, conn.committed⟩, false) := by
  intro chs
  induction chs with
  | nil =>
      intro conn k
      cases k with
      | zero => rfl
      | succ k => rfl
  | cons c rest ih =>
      intro conn k
      cases k with
      | zero => rfl
      | succ k =>
          show runEnqueue mappings today now
            ⟨conn.committed, registerOne mappings today now conn.current c.1 c.2⟩
            rest (some k) = _
          rw [ih]

theorem runEnqueue_none_commit {V : Type} (mappings : List VariantMapping)
    (today now : Nat) :
    ∀ (chs : List (String × V)) (conn : Conn V),
    runEnqueue mappings today now conn chs none =
      (⟨registerChanges mappings today now conn.current chs,
        registerChanges mappings today now conn.current chs⟩, true) := by
  intro chs
  induction chs with
  | nil =>
      intro conn
      rfl
  | cons c rest ih =>
      intro conn
      show runEnqueue mappings today now
        ⟨conn.committed, registerOne mappings today now conn.current c.1 c.2⟩
        rest none = _
      rw [ih]
      rfl

/-! ## Queue coalescing lemmas -/

theorem filter_pending_map_update {V : Type} (q : List (QueueTask V))
    (tid : Nat) (v : V) (now vid : Nat) :
    (q.map (fun u =>
        if u.id = tid then { u with new_value := v, created_at := now } else u)).filter
        (fun t => t.variant_mapping_id == vid && t.status == TStatus.pending) =
      (q.filter
        (fun t => t.variant_mapping_id == vid && t.status == TStatus.pending)).map
        (fun u =>
          if u.id = tid then { u with new_value := v, created_at := now } else u) := by
  rw [List.filter_map]
  congr 1
  apply List.filter_congr
  intro u _
  by_cases h : u.id = tid <;> simp [h]

theorem pendingTasksFor_eq_single {V : Type} {ks : KindState V} {vid : Nat}
    {t : QueueTask V}
    (hinv : (pendingTasksFor ks vid).length ≤ 1)
    (hfind : ks.queue.find? (fun u =>
      u.variant_mapping_id == vid && u.status == TStatus.pending) = some t) :
    pendingTasksFor ks vid = [t] := by
  have hmem : t ∈ pendingTasksFor ks vid := by
    have hp := List.find?_some hfind
    unfold pendingTasksFor
    rw [List.mem_filter]
    exact ⟨List.mem_of_find?_eq_some hfind, hp⟩
  cases hq : pendingTasksFor ks vid with
  | nil => rw [hq] at hmem; cases hmem
  | cons a tl =>
      cases tl with
      | nil =>
          rw [hq] at hmem
          rw [List.mem_singleton.mp hmem]
      | cons b tl' =>
          rw [hq] at hinv
          simp at hinv

theorem registerOne_pendingValues_hit {V : Type} (mappings : List VariantMapping)
    (today now : Nat) (ks : KindState V) (ref : String) (v : V) (vid : Nat)
    (hres : get_variant_id mappings ref = some vid)
    (hinv : (pendingTasksFor ks vid).length ≤ 1) :
    pendingValues (registerOne mappings today now ks ref v) vid = [v] := by
  unfold pendingValues pendingTasksFor registerOne
  rw [hres]
  dsimp only
  split
  · rename_i t hfind
    dsimp only
    rw [filter_pending_map_update]
    have hsingle := pendingTasksFor_eq_single hinv hfind
    unfold pendingTasksFor at hsingle
    rw [hsingle]
    simp
  · rename_i hfind
    dsimp only
    rw [List.filter_append]
    have hempty : ks.queue.filter (fun u =>
        u.variant_mapping_id == vid && u.status == TStatus.pending) = [] := by
      rw [List.filter_eq_nil_iff]
      intro u hu
      have := List.find?_eq_none.mp hfind u hu
      simpa using this
    rw [hempty]
    simp

theorem registerOne_pendingTasksFor_other {V : Type}
    (mappings : List VariantMapping) (today now : Nat) (ks : KindState V)
    (ref : String) (v : V) (vid : Nat)
    (hwf : QueueWF ks)
    (hother : get_variant_id mappings ref ≠ some vid) :
    pendingTasksFor (registerOne mappings today now ks ref v) vid =
      pendingTasksFor ks vid := by
  unfold pendingTasksFor registerOne
  split
  · rfl
  · rename_i w hres
    have hwv : w ≠ vid := fun h => hother (h ▸ hres)
    dsimp only
    split
    · rename_i t hfind
      dsimp only
      rw [filter_pending_map_update]
      have ht := List.find?_some hfind
      have htw : t.variant_mapping_id = w := by
        simp only [Bool.and_eq_true, beq_iff_eq] at ht
        exact ht.1
      have htmem := List.mem_of_find?_eq_some hfind
      have hfix : ∀ u ∈ ks.queue.filter (fun u =>
          u.variant_mapping_id == vid && u.status == TStatus.pending),
          (if u.id = t.id then { u with new_value := v, created_at := now }
            else u) = u := by
        intro u hu
        rcases List.mem_filter.mp hu with ⟨humem, hup⟩
        simp only [Bool.and_eq_true, beq_iff_eq] at hup
        have hune : u ≠ t := by
          intro he
          rw [he] at hup
          exact hwv (htw.symm.trans hup.1)
        have hid : u.id ≠ t.id := by
          intro hide
          exact hune (List.inj_on_of_nodup_map hwf.1 humem htmem hide)
        rw [if_neg hid]
      calc (ks.queue.filter (fun u =>
            u.variant_mapping_id == vid && u.status == TStatus.pending)).map
            (fun u => if u.id = t.id
              then { u with new_value := v, created_at := now } else u)
          = (ks.queue.filter (fun u =>
            u.variant_mapping_id == vid && u.status == TStatus.pending)).map id := by
            apply List.map_congr_left
            intro u hu
            rw [hfix u hu]
            rfl
        _ = ks.queue.filter (fun u =>
            u.variant_mapping_id == vid && u.status == TStatus.pending) :=
            List.map_id _
    · rename_i hfind
      dsimp only
      rw [List.filter_append]
      have hb : (w == vid) = false := by
        simpa using hwv
      simp [hb]

theorem registerOne_inv {V : Type} (mappings : List VariantMapping)
    (today now : Nat) (ks : KindState V) (ref : String) (v : V)
    (hwf : QueueWF ks) (hinv : InvOnePending ks) :
    InvOnePending (registerOne mappings today now ks ref v) := by
  intro vid
  by_cases h : get_variant_id mappings ref = some vid
  · have hhit := registerOne_pendingValues_hit mappings today now ks ref v vid h
      (hinv vid)
    have hlen : (pendingTasksFor (registerOne mappings today now ks ref v) vid).length
        = 1 := by
      have h1 : (pendingValues (registerOne mappings today now ks ref v) vid).length
          = 1 := by rw [hhit]; rfl
      simpa [pendingValues] using h1
    omega
  · rw [registerOne_pendingTasksFor_other mappings today now ks ref v vid hwf h]
    exact hinv vid

theorem registerOne_wf {V : Type} (mappings : List VariantMapping)
    (today now : Nat) (ks : KindState V) (ref : String) (v : V)
    (hwf : QueueWF ks) :
    QueueWF (registerOne mappings today now ks ref v) := by
  unfold registerOne
  split
  · exact hwf
  · rename_i w hres
    dsimp only
    split
    · rename_i t hfind
      unfold QueueWF
      dsimp only
      constructor
      · have hids : (ks.queue.map (fun u =>
            if u.id = t.id then { u with new_value := v, created_at := now }
            else u)).map (fun u => u.id) = ks.queue.map (fun u => u.id) := by
          rw [List.map_map]
          apply List.map_congr_left
          intro u _
          by_cases h : u.id = t.id <;> simp [h]
        rw [hids]
        exact hwf.1
      · intro u hu
        rcases List.mem_map.mp hu with ⟨u₀, hu₀, hequ⟩
        have : u.id = u₀.id := by
          rw [← hequ]
          by_cases h : u₀.id = t.id <;> simp [h]
        rw [this]
        exact hwf.2 u₀ hu₀
    · rename_i hfind
      unfold QueueWF
      dsimp only
      constructor
      · rw [List.map_append]
        apply List.Nodup.append hwf.1 (List.nodup_singleton _)
        intro a ha hb
        rcases List.mem_map.mp ha with ⟨u₀, hu₀, hequ⟩
        rcases List.mem_singleton.mp hb with rfl
        have h1 := hwf.2 u₀ hu₀
        have h2 : u₀.id = ks.next_id := by simpa using hequ
        omega
      · intro u hu
        rcases List.mem_append.mp hu with h | h
        · have := hwf.2 u h
          omega
        · rcases List.mem_singleton.mp h with rfl
          exact Nat.lt_succ_self ks.next_id

theorem registerChanges_cons {V : Type} (mappings : List VariantMapping)
    (today now : Nat) (ks : KindState V) (c : String × V)
    (rest : List (String × V)) :
    registerChanges mappings today now ks (c :: rest) =
      registerChanges mappings today now
        (registerOne mappings today now ks c.1 c.2) rest := rfl

theorem registerChanges_wf {V : Type} (mappings : List VariantMapping)
    (today now : Nat) :
    ∀ (chs : List (String × V)) (ks : KindState V), QueueWF ks →
    QueueWF (registerChanges mappings today now ks chs) := by
  intro chs
  induction chs with
  | nil => intro ks h; exact h
  | cons c rest ih =>
      intro ks h
      rw [registerChanges_cons]
      exact ih _ (registerOne_wf mappings today now ks c.1 c.2 h)

theorem registerChanges_inv {V : Type} (mappings : List VariantMapping)
    (today now : Nat) :
    ∀ (chs : List (String × V)) (ks : KindState V), QueueWF ks →
    InvOnePending ks →
    InvOnePending (registerChanges mappings today now ks chs) := by
  intro chs
  induction chs with
  | nil => intro ks _ h; exact h
  | cons c rest ih =>
      intro ks hwf hinv
      rw [registerChanges_cons]
      exact ih _ (registerOne_wf mappings today now ks c.1 c.2 hwf)
        (registerOne_inv mappings today now ks c.1 c.2 hwf hinv)

theorem registerChanges_pendingTasksFor_other {V : Type}
    (mappings : List VariantMapping) (today now : Nat) (vid : Nat) :
    ∀ (chs : List (String × V)) (ks : KindState V), QueueWF ks →
    (∀ c ∈ chs, get_variant_id mappings c.1 ≠ some vid) →
    pendingTasksFor (registerChanges mappings today now ks chs) vid =
      pendingTasksFor ks vid := by
  intro chs
  induction chs with
  | nil => intro ks _ _; rfl
  | cons c rest ih =>
      intro ks hwf hother
      rw [registerChanges_cons]
      rw [ih _ (registerOne_wf mappings today now ks c.1 c.2 hwf)
        (fun c' hc' => hother c' (List.mem_cons_of_mem _ hc'))]
      exact registerOne_pendingTasksFor_other mappings today now ks c.1 c.2 vid hwf
        (hother c (List.mem_cons_self _ _))

theorem get_variant_id_inj (mappings : List VariantMapping)
    (hmid : (mappings.map (fun m => m.id)).Nodup)
    {r₁ r₂ : String} {w : Nat} (hne : r₁ ≠ r₂)
    (h₁ : get_variant_id mappings r₁ = some w)
    (h₂ : get_variant_id mappings r₂ = some w) : False := by
  unfold get_variant_id at h₁ h₂
  cases hf₁ : mappings.find? (fun m => m.internal_sku == r₁) with
  | none => rw [hf₁] at h₁; cases h₁
  | some m₁ =>
      cases hf₂ : mappings.find? (fun m => m.internal_sku == r₂) with
      | none => rw [hf₂] at h₂; cases h₂
      | some m₂ =>
          rw [hf₁] at h₁
          rw [hf₂] at h₂
          have hid₁ : m₁.id = w := Option.some.inj h₁
          have hid₂ : m₂.id = w := Option.some.inj h₂
          have hsku₁ : m₁.internal_sku = r₁ := by
            simpa using List.find?_some hf₁
          have hsku₂ : m₂.internal_sku = r₂ := by
            simpa using List.find?_some hf₂
          have hm : m₁ = m₂ :=
            List.inj_on_of_nodup_map hmid (List.mem_of_find?_eq_some hf₁)
              (List.mem_of_find?_eq_some hf₂) (hid₁.trans hid₂.symm)
          exact hne ((hsku₁.symm.trans (hm ▸ hsku₂)))

theorem registerChanges_pendingValues_mem {V : Type}
    (mappings : List VariantMapping) (today now : Nat)
    (hmid : (mappings.map (fun m => m.id)).Nodup) :
    ∀ (chs : List (String × V)) (ks : KindState V), QueueWF ks →
    InvOnePending ks → (chs.map Prod.fst).Nodup →
    ∀ rv ∈ chs, ∀ vid, get_variant_id mappings rv.1 = some vid →
    pendingValues (registerChanges mappings today now ks chs) vid = [rv.2] := by
  intro chs
  induction chs with
  | nil => intro ks _ _ _ rv h; cases h
  | cons c rest ih =>
      intro ks hwf hinv hkeys rv hmem vid hres
      have hwf' := registerOne_wf mappings today now ks c.1 c.2 hwf
      have hinv' := registerOne_inv mappings today now ks c.1 c.2 hwf hinv
      have hkeys' : (rest.map Prod.fst).Nodup ∧ c.1 ∉ rest.map Prod.fst := by
        rw [List.map_cons] at hkeys
        have h := List.nodup_cons.mp hkeys
        exact ⟨h.2, h.1⟩
      rw [registerChanges_cons]
      rcases List.mem_cons.mp hmem with heq | hmem'
      · subst heq
        have hother : ∀ c' ∈ rest, get_variant_id mappings c'.1 ≠ some vid := by
          intro c' hc' h'
          have hnek : rv.1 ≠ c'.1 := by
            intro he
            exact hkeys'.2 (he ▸ List.mem_map_of_mem Prod.fst hc')
          exact get_variant_id_inj mappings hmid hnek hres h'
        unfold pendingValues
        rw [registerChanges_pendingTasksFor_other mappings today now vid rest
          _ hwf' hother]
        have := registerOne_pendingValues_hit mappings today now ks rv.1 rv.2 vid
          hres (hinv vid)
        unfold pendingValues at this
        exact this
      · exact ih _ hwf' hinv' hkeys'.1 rv hmem' vid hres

/-- C2. Enqueueing the same change set twice in succession (through
register_price_changes and register_stock_changes) creates no duplicate
pending tasks: after each call the at-most-one-pending-task-per-variant
invariant holds, and after the second call every resolvable reference of the
change set has exactly one pending task whose value is the (second) call's
value — an existing pending task is updated in place rather than duplicated. -/
theorem C2_enqueue_twice_idempotent (db : DB) (t₁ n₁ t₂ n₂ : Nat)
    (pchs : List (String × ℚ)) (schs : List (String × ℤ))
    (hpwf : QueueWF db.price) (hpinv : InvOnePending db.price)
    (hswf : QueueWF db.stock) (hsinv : InvOnePending db.stock)
    (hmid : (db.mappings.map (fun m => m.id)).Nodup)
    (hpkeys : (pchs.map Prod.fst).Nodup)
    (hskeys : (schs.map Prod.fst).Nodup) :
    InvOnePending (register_price_changes_state db t₁ n₁ pchs).price ∧
    InvOnePending (register_price_changes_state
      (register_price_changes_state db t₁ n₁ pchs) t₂ n₂ pchs).price ∧
    InvOnePending (register_stock_changes_state db t₁ n₁ schs).stock ∧
    InvOnePending (register_stock_changes_state
      (register_stock_changes_state db t₁ n₁ schs) t₂ n₂ schs).stock ∧
    (∀ rv ∈ pchs, ∀ vid, get_variant_id db.mappings rv.1 = some vid →
      pendingValues (register_price_changes_state
        (register_price_changes_state db t₁ n₁ pchs) t₂ n₂ pchs).price vid =
        [rv.2]) ∧
    (∀ rv ∈ schs, ∀ vid, get_variant_id db.mappings rv.1 = some vid →
      pendingValues (register_stock_changes_state
        (register_stock_changes_state db t₁ n₁ schs) t₂ n₂ schs).stock vid =
        [rv.2]) := by
  have hpwf₁ := registerChanges_wf db.mappings t₁ n₁ pchs db.price hpwf
  have hpinv₁ := registerChanges_inv db.mappings t₁ n₁ pchs db.price hpwf hpinv
  have hswf₁ := registerChanges_wf db.mappings t₁ n₁ schs db.stock hswf
  have hsinv₁ := registerChanges_inv db.mappings t₁ n₁ schs db.stock hswf hsinv
  refine ⟨hpinv₁, ?_, hsinv₁, ?_, ?_, ?_⟩
  · exact registerChanges_inv db.mappings t₂ n₂ pchs _ hpwf₁ hpinv₁
  · exact registerChanges_inv db.mappings t₂ n₂ schs _ hswf₁ hsinv₁
  · intro rv hmem vid hres
    exact registerChanges_pendingValues_mem db.mappings t₂ n₂ hmid pchs _
      hpwf₁ hpinv₁ hpkeys rv hmem vid hres
  · intro rv hmem vid hres
    exact registerChanges_pendingValues_mem db.mappings t₂ n₂ hmid schs _
      hswf₁ hsinv₁ hskeys rv hmem vid hres

/-- C2 witness: the idempotence conclusion instantiated on a one-mapping
database with empty queues, enqueueing price 5 and stock 4 for reference R1
twice. -/
theorem C2_witness :
    QueueWF wDB.price ∧ InvOnePending wDB.price ∧
    QueueWF wDB.stock ∧ InvOnePending wDB.stock ∧
    (wDB.mappings.map (fun m => m.id)).Nodup ∧
    (([("R1", (5 : ℚ))].map Prod.fst).Nodup) ∧
    (([("R1", (4 : ℤ))].map Prod.fst).Nodup) ∧
    (∀ rv ∈ [("R1", (5 : ℚ))], ∀ vid,
      get_variant_id wDB.mappings rv.1 = some vid →
      pendingValues (register_price_changes_state
        (register_price_changes_state wDB 0 1 [("R1", (5 : ℚ))]) 2 3
        [("R1", (5 : ℚ))]).price vid = [rv.2]) :=
  have hpwf : QueueWF wDB.price := ⟨List.nodup_nil, by intro t ht; cases ht⟩
  have hpinv : InvOnePending wDB.price := by
    intro vid
    simp [pendingTasksFor, wDB]
  have hswf : QueueWF wDB.stock := ⟨List.nodup_nil, by intro t ht; cases ht⟩
  have hsinv : InvOnePending wDB.stock := by
    intro vid
    simp [pendingTasksFor, wDB]
  have hmid : (wDB.mappings.map (fun m => m.id)).Nodup := by
    simp [wDB, wMappings]
  ⟨hpwf, hpinv, hswf, hsinv, hmid, by simp, by simp,
    (C2_enqueue_twice_idempotent wDB 0 1 2 3 [("R1", (5 : ℚ))] [("R1", (4 : ℤ))]
      hpwf hpinv hswf hsinv hmid (by simp) (by simp)).2.2.2.2.1⟩

/-- C7. One enqueue call is atomic: an error at any point of the call (after
any number of loop iterations, or at commit itself, failAt = some k) rolls the
whole transaction back, leaves the committed state untouched, leaves no
partial in-flight state, and makes the call return False; the error-free run
publishes the whole batch with the single final commit and returns True. -/
theorem C7_enqueue_atomic_rollback {V : Type} (mappings : List VariantMapping)
    (today now : Nat) (conn : Conn V) (chs : List (String × V)) :
    (∀ k,
      (runEnqueue mappings today now conn chs (some k)).2 = false ∧
      (runEnqueue mappings today now conn chs (some k)).1.committed =
        conn.committed ∧
      (runEnqueue mappings today now conn chs (some k)).1.current =
        conn.committed) ∧
    runEnqueue mappings today now conn chs none =
      (⟨registerChanges mappings today now conn.current chs,
        registerChanges mappings today now conn.current chs⟩, true) := by
  refine ⟨fun k => ?_, runEnqueue_none_commit mappings today now chs conn⟩
  rw [runEnqueue_some_rollback]
  exact ⟨rfl, rfl, rfl⟩

/-- C9. A reference with no variant_mappings entry is skipped without
aborting: a skipped iteration leaves the state unchanged, the whole call
persists exactly the resolvable references (the run equals the run on the
resolvable sublist), and the call still commits and returns True, so
unresolved references never fail the batch. -/
theorem C9_unresolved_reference_skipped {V : Type}
    (mappings : List VariantMapping) (today now : Nat) (ks : KindState V)
    (conn : Conn V) (chs : List (String × V)) :
    (∀ (ref : String) (v : V), get_variant_id mappings ref = none →
      registerOne mappings today now ks ref v = ks) ∧
    registerChanges mappings today now ks chs =
      registerChanges mappings today now ks
        (chs.filter (fun c => (get_variant_id mappings c.1).isSome)) ∧
    (runEnqueue mappings today now conn chs none).2 = true := by
  refine ⟨?_, ?_, ?_⟩
  · intro ref v h
    unfold registerOne
    rw [h]
  · induction chs generalizing ks with
    | nil => rfl
    | cons c rest ih =>
        rw [show registerChanges mappings today now ks (c :: rest) =
          registerChanges mappings today now
            (registerOne mappings today now ks c.1 c.2) rest from rfl]
        cases hres : get_variant_id mappings c.1 with
        | none =>
            have hskip : registerOne mappings today now ks c.1 c.2 = ks := by
              unfold registerOne
              rw [hres]
            rw [hskip, List.filter_cons]
            simp only [hres, Option.isSome_none, Bool.false_eq_true, if_neg,
              not_false_iff]
            exact ih ks
        | some w =>
            rw [List.filter_cons]
            simp only [hres, Option.isSome_some, if_pos]
            show registerChanges mappings today now
                (registerOne mappings today now ks c.1 c.2) rest =
              registerChanges mappings today now
                (registerOne mappings today now ks c.1 c.2)
                (rest.filter (fun c => (get_variant_id mappings c.1).isSome))
            exact ih _
  · rw [runEnqueue_none_commit]

/-! ## Discontinued-detection lemmas -/

theorem lookupKV_eq_none_iff {α β : Type} [DecidableEq α]
    (l : List (α × β)) (k : α) :
    lookupKV l k = none ↔ k ∉ l.map Prod.fst := by
  induction l with
  | nil => simp [lookupKV]
  | cons p rest ih =>
      rw [lookupKV_cons]
      by_cases hp : p.1 = k
      · simp [hp]
      · rw [if_neg hp]
        simp only [List.map_cons, List.mem_cons, not_or, ih]
        constructor
        · intro h
          exact ⟨fun he => hp he.symm, h⟩
        · intro h
          exact h.2

theorem keys_dinsert_nodup {α β : Type} [DecidableEq α]
    (l : List (α × β)) (k : α) (v : β)
    (h : (l.map Prod.fst).Nodup) :
    ((dinsert l k v).map Prod.fst).Nodup := by
  unfold dinsert
  by_cases hc : containsKey l k
  · rw [if_pos hc]
    have heq : (l.map (fun p => if p.1 = k then (k, v) else p)).map Prod.fst =
        l.map Prod.fst := by
      rw [List.map_map]
      apply List.map_congr_left
      intro p _
      by_cases hp : p.1 = k <;> simp [hp]
    rw [heq]
    exact h
  · rw [if_neg hc]
    rw [List.map_append]
    apply List.Nodup.append h (List.nodup_singleton _)
    intro a ha hb
    have hak : a = k := by simpa using hb
    subst hak
    unfold containsKey at hc
    rw [Bool.not_eq_true] at hc
    have hnone : lookupKV l a = none := by
      cases hlk : lookupKV l a with
      | none => rfl
      | some v' => rw [hlk] at hc; cases hc
    exact (lookupKV_eq_none_iff l a).mp hnone ha

theorem lookupKV_filter {α β : Type} [DecidableEq α] (q : α × β → Bool) :
    ∀ (l : List (α × β)) (r : α), (l.map Prod.fst).Nodup →
    lookupKV (l.filter q) r =
      match lookupKV l r with
      | some v => if q (r, v) then some v else none
      | none => none := by
  intro l
  induction l with
  | nil => intro r _; rfl
  | cons p rest ih =>
      intro r hnd
      have hnd2 : p.1 ∉ rest.map Prod.fst ∧ (rest.map Prod.fst).Nodup := by
        rw [List.map_cons] at hnd
        have h := List.nodup_cons.mp hnd
        exact ⟨h.1, h.2⟩
      rw [List.filter_cons, lookupKV_cons]
      by_cases hp : p.1 = r
      · rw [if_pos hp]
        have hpair : (r, p.2) = p := by
          rw [← hp]
        by_cases hq : q p
        · rw [if_pos hq, lookupKV_cons, if_pos hp]
          dsimp only
          rw [hpair, hq]
          rfl
        · rw [if_neg hq]
          have hnone : lookupKV (rest.filter q) r = none := by
            rw [lookupKV_eq_none_iff]
            intro hmem
            apply hnd2.1
            rw [hp]
            rcases List.mem_map.mp hmem with ⟨x, hx, hequ⟩
            exact hequ ▸ List.mem_map_of_mem Prod.fst (List.mem_of_mem_filter hx)
          rw [hnone]
          dsimp only
          rw [hpair]
          rw [if_neg (by simpa using hq)]
      · rw [if_neg hp]
        by_cases hq : q p
        · rw [if_pos hq, lookupKV_cons, if_neg hp]
          exact ih r hnd2.2
        · rw [if_neg hq]
          exact ih r hnd2.2

theorem lookupKV_discInsert_ne (df : List ProductRow) (date : String)
    (disc : List (String × DiscInfo)) (ref r : String) (h : r ≠ ref) :
    lookupKV (discInsert df date disc ref) r = lookupKV disc r := by
  unfold discInsert
  split
  · rfl
  · rename_i row hrow
    split
    · exact lookupKV_dinsert_ne _ _ _ _ h
    · exact lookupKV_dinsert_ne _ _ _ _ h

theorem keys_discInsert_nodup (df : List ProductRow) (date : String)
    (disc : List (String × DiscInfo)) (ref : String)
    (h : (disc.map Prod.fst).Nodup) :
    ((discInsert df date disc ref).map Prod.fst).Nodup := by
  unfold discInsert
  split
  · exact h
  · rename_i row hrow
    split
    · exact keys_dinsert_nodup _ _ _ h
    · exact keys_dinsert_nodup _ _ _ h

theorem innerFold_lookup_not_mem (df : List ProductRow) (date : String) :
    ∀ (ms : List String) (disc : List (String × DiscInfo)) (r : String),
    r ∉ ms →
    lookupKV (ms.foldl (discInsert df date) disc) r = lookupKV disc r := by
  intro ms
  induction ms with
  | nil => intro disc r _; rfl
  | cons m rest ih =>
      intro disc r hr
      rw [List.foldl_cons]
      rw [ih _ r (fun h => hr (List.mem_cons_of_mem _ h))]
      exact lookupKV_discInsert_ne df date disc m r
        (fun h => hr (h ▸ List.mem_cons_self _ _))

theorem innerFold_lookup_mem (df : List ProductRow) (date : String) :
    ∀ (ms : List String) (disc : List (String × DiscInfo)) (r : String)
      (row : ProductRow), ms.Nodup → r ∈ ms → findRow df r = some row →
    lookupKV (ms.foldl (discInsert df date) disc) r =
      some (match lookupKV disc r with
        | none => ⟨r, row.descripcion, row.imagen1, date,
            row.precio, row.stock, 1⟩
        | some info => { info with dias_ausente := info.dias_ausente + 1 }) := by
  intro ms
  induction ms with
  | nil => intro disc r row _ hmem; cases hmem
  | cons m rest ih =>
      intro disc r row hnd hmem hrow
      have hnd2 := List.nodup_cons.mp hnd
      rw [List.foldl_cons]
      rcases List.mem_cons.mp hmem with heq | hmem'
      · subst heq
        rw [innerFold_lookup_not_mem df date rest _ r hnd2.1]
        unfold discInsert
        rw [hrow]
        dsimp only
        cases hl : lookupKV disc r with
        | none =>
            dsimp only
            exact lookupKV_dinsert_self _ _ _
        | some info =>
            dsimp only
            exact lookupKV_dinsert_self _ _ _
      · have hne : r ≠ m := by
          intro he
          exact hnd2.1 (he ▸ hmem')
        have hstep : lookupKV (discInsert df date disc m) r = lookupKV disc r :=
          lookupKV_discInsert_ne df date disc m r hne
        rw [ih _ r row hnd2.2 hmem' hrow, hstep]

theorem keys_innerFold_nodup (df : List ProductRow) (date : String) :
    ∀ (ms : List String) (disc : List (String × DiscInfo)),
    (disc.map Prod.fst).Nodup →
    (((ms.foldl (discInsert df date) disc)).map Prod.fst).Nodup := by
  intro ms
  induction ms with
  | nil => intro disc h; exact h
  | cons m rest ih =>
      intro disc h
      rw [List.foldl_cons]
      exact ih _ (keys_discInsert_nodup df date disc m h)

theorem keys_discStep_nodup (cur : List String)
    (disc : List (String × DiscInfo)) (fd : List ProductRow × String)
    (h : (disc.map Prod.fst).Nodup) :
    ((discStep cur disc fd).map Prod.fst).Nodup := by
  unfold discStep
  exact keys_innerFold_nodup fd.1 fd.2 _ disc h

theorem keys_outerFold_nodup (cur : List String) :
    ∀ (files : List (List ProductRow × String))
      (disc : List (String × DiscInfo)),
    (disc.map Prod.fst).Nodup →
    ((files.foldl (discStep cur) disc).map Prod.fst).Nodup := by
  intro files
  induction files with
  | nil => intro disc h; exact h
  | cons fd rest ih =>
      intro disc h
      rw [List.foldl_cons]
      exact ih _ (keys_discStep_nodup cur disc fd h)

theorem lookupKV_discStep_not_absent (cur : List String)
    (disc : List (String × DiscInfo)) (fd : List ProductRow × String)
    (r : String)
    (h : (!(cur.contains r) &&
      ((fd.1.map (fun x => x.referencia)).contains r)) = false) :
    lookupKV (discStep cur disc fd) r = lookupKV disc r := by
  unfold discStep
  apply innerFold_lookup_not_mem
  intro hmem
  rcases List.mem_filter.mp hmem with ⟨hdedup, hnc⟩
  have h1 : (fd.1.map (fun x => x.referencia)).contains r = true := by
    simpa using List.mem_dedup.mp hdedup
  rw [hnc, h1] at h
  cases h

theorem lookupKV_discStep_absent (cur : List String)
    (disc : List (String × DiscInfo)) (fd : List ProductRow × String)
    (r : String) (row : ProductRow)
    (hcur : cur.contains r = false)
    (hrow : findRow fd.1 r = some row) :
    lookupKV (discStep cur disc fd) r =
      some (match lookupKV disc r with
        | none => ⟨r, row.descripcion, row.imagen1, fd.2,
            row.precio, row.stock, 1⟩
        | some info => { info with dias_ausente := info.dias_ausente + 1 }) := by
  unfold discStep
  apply innerFold_lookup_mem
  · exact (List.nodup_dedup _).filter _
  · rw [List.mem_filter]
    obtain ⟨hmem, href⟩ := findRow_some hrow
    constructor
    · rw [List.mem_dedup]
      exact href ▸ List.mem_map_of_mem (fun x => x.referencia) hmem
    · rw [hcur]
      rfl
  · exact hrow

theorem findRow_isSome_of_contains (df : List ProductRow) (r : String)
    (h : (df.map (fun x => x.referencia)).contains r = true) :
    ∃ row, findRow df r = some row := by
  have hmem : r ∈ df.map (fun x => x.referencia) := by simpa using h
  rcases List.mem_map.mp hmem with ⟨u, hu, hequ⟩
  cases hfr : findRow df r with
  | some row => exact ⟨row, rfl⟩
  | none =>
      exfalso
      unfold findRow at hfr
      have := List.find?_eq_none.mp hfr u hu
      simp [hequ] at this

theorem outerFold_in_current (cur : List String) (r : String)
    (hcur : cur.contains r = true) :
    ∀ (files : List (List ProductRow × String))
      (disc : List (String × DiscInfo)),
    lookupKV (files.foldl (discStep cur) disc) r = lookupKV disc r := by
  intro files
  induction files with
  | nil => intro disc; rfl
  | cons fd rest ih =>
      intro disc
      rw [List.foldl_cons, ih]
      apply lookupKV_discStep_not_absent
      rw [hcur]
      rfl

theorem outerFold_dias (cur : List String) (r : String)
    (hcur : cur.contains r = false) :
    ∀ (files : List (List ProductRow × String))
      (disc : List (String × DiscInfo)),
    (lookupKV (files.foldl (discStep cur) disc) r).map
        (fun i => i.dias_ausente) =
      match lookupKV disc r with
      | some i => some (i.dias_ausente + filesContaining files r)
      | none =>
          if filesContaining files r = 0 then none
          else some (filesContaining files r) := by
  intro files
  induction files with
  | nil =>
      intro disc
      cases hl : lookupKV disc r <;> simp [filesContaining, hl]
  | cons fd rest ih =>
      intro disc
      rw [List.foldl_cons]
      cases hin : (fd.1.map (fun x => x.referencia)).contains r with
      | true =>
          rcases findRow_isSome_of_contains fd.1 r hin with ⟨row, hrow⟩
          have hstep := lookupKV_discStep_absent cur disc fd r row hcur hrow
          have hcount : filesContaining (fd :: rest) r =
              filesContaining rest r + 1 := by
            unfold filesContaining
            rw [List.filter_cons, if_pos (by simpa using hin)]
            simp [Nat.add_comm]
          rw [ih _, hstep, hcount]
          cases hl : lookupKV disc r with
          | some i =>
              dsimp only
              rw [Option.some_inj]
              omega
          | none =>
              dsimp only
              rw [if_neg (by omega)]
              rw [Option.some_inj]
              omega
      | false =>
          have hstep := lookupKV_discStep_not_absent cur disc fd r
            (by rw [hin]; simp)
          have hcount : filesContaining (fd :: rest) r =
              filesContaining rest r := by
            unfold filesContaining
            rw [List.filter_cons, if_neg (by simpa using hin)]
          rw [ih _, hstep, hcount]

/-- C3 counterexample. With days_threshold = 3, take a reference X absent from
the current snapshot and from the snapshots of days D-1, D-2, D-3, but
present in the snapshot of day D-4 (all four scanned days have data). The
claim says X is flagged as discontinued; detect_discontinued_products counts
one day of absence per historical snapshot that still lists X, so X
accumulates only one absence day and is not flagged. -/
theorem C3_counterexample_absence_pattern_not_flagged :
    (["A"].contains "X") = false ∧
    ((c3store 1).map
      (fun fd => (fd.1.map (fun x => x.referencia)).contains "X")) = some false ∧
    ((c3store 2).map
      (fun fd => (fd.1.map (fun x => x.referencia)).contains "X")) = some false ∧
    ((c3store 3).map
      (fun fd => (fd.1.map (fun x => x.referencia)).contains "X")) = some false ∧
    ((c3store 4).map
      (fun fd => (fd.1.map (fun x => x.referencia)).contains "X")) = some true ∧
    (scanFiles c3store 3).length = 4 ∧
    containsKey (detect_discontinued_products ["A"] c3store 3) "X" = false := by
  refine ⟨?_, ?_, ?_, ?_, ?_, ?_, ?_⟩ <;> decide

/-- C3 (amended). For a positive days_threshold: when fewer than
days_threshold of the scanned days (the most recent days_threshold + 1
calendar days strictly before today) have snapshot data, the result is empty
rather than an error; a reference present in the current snapshot is never
flagged regardless of historical absence; and when at least days_threshold
scanned days have data, a reference is flagged iff it is absent from the
current snapshot and is listed in at least days_threshold of the located
historical snapshots (so with days_threshold = 3 a reference listed in only
2 of them is not flagged). -/
theorem C3_detect_discontinued_characterization (current_refs : List String)
    (store : Nat → Option (List ProductRow × String)) (days_threshold : Nat)
    (r : String) (hpos : 0 < days_threshold) :
    ((scanFiles store days_threshold).length < days_threshold →
      detect_discontinued_products current_refs store days_threshold = []) ∧
    (current_refs.contains r = true →
      containsKey (detect_discontinued_products current_refs store days_threshold)
        r = false) ∧
    (days_threshold ≤ (scanFiles store days_threshold).length →
      (containsKey (detect_discontinued_products current_refs store days_threshold)
          r = true ↔
        current_refs.contains r = false ∧
        days_threshold ≤ filesContaining (scanFiles store days_threshold) r)) := by
  refine ⟨?_, ?_, ?_⟩
  · intro h
    unfold detect_discontinued_products
    dsimp only
    rw [if_pos h]
  · intro hc
    unfold detect_discontinued_products
    dsimp only
    by_cases hlen : (scanFiles store days_threshold).length < days_threshold
    · rw [if_pos hlen]
      rfl
    · rw [if_neg hlen]
      unfold containsKey
      rw [lookupKV_filter _ _ _
        (keys_outerFold_nodup current_refs (scanFiles store days_threshold) []
          (by simp))]
      rw [outerFold_in_current current_refs r hc (scanFiles store days_threshold) []]
      rfl
  · intro hlen
    unfold detect_discontinued_products
    dsimp only
    rw [if_neg (by omega)]
    unfold containsKey
    rw [lookupKV_filter _ _ _
      (keys_outerFold_nodup current_refs (scanFiles store days_threshold) []
        (by simp))]
    cases hc : current_refs.contains r with
    | true =>
        rw [outerFold_in_current current_refs r hc (scanFiles store days_threshold) []]
        simp only [Bool.true_eq_false, false_and, iff_false, Bool.not_eq_true]
        rfl
    | false =>
        have hdias := outerFold_dias current_refs r hc
          (scanFiles store days_threshold) []
        rw [show lookupKV ([] : List (String × DiscInfo)) r = none from rfl]
          at hdias
        dsimp only at hdias
        by_cases hcnt : filesContaining (scanFiles store days_threshold) r = 0
        · rw [if_pos hcnt] at hdias
          have hfoldnone : lookupKV
              ((scanFiles store days_threshold).foldl (discStep current_refs) [])
              r = none := by
            rcases hop : lookupKV
                ((scanFiles store days_threshold).foldl (discStep current_refs) [])
                r with _ | v
            · rfl
            · rw [hop] at hdias
              cases hdias
          rw [hfoldnone]
          dsimp only
          simp [hcnt]
          omega
        · rw [if_neg hcnt] at hdias
          rcases Option.map_eq_some'.mp hdias with ⟨info, hinfo, hdi⟩
          rw [hinfo]
          dsimp only
          by_cases hle : days_threshold ≤ info.dias_ausente
          · rw [if_pos (by simpa using hle)]
            simp only [Option.isSome_some, true_iff]
            exact ⟨by trivial, hdi ▸ hle⟩
          · rw [if_neg (by simpa using hle)]
            simp only [Option.isSome_none, Bool.false_eq_true, false_iff,
              not_and]
            intro _
            rw [← hdi]
            exact hle

/-- C3 witness: the characterization applied with days_threshold = 3 to a
store whose four scanned days all have snapshots. -/
theorem C3_witness :
    0 < 3 ∧
    (3 ≤ (scanFiles c3storeAll 3).length →
      (containsKey (detect_discontinued_products ["A"] c3storeAll 3) "X" = true ↔
        (["A"].contains "X") = false ∧
        3 ≤ filesContaining (scanFiles c3storeAll 3) "X")) :=
  ⟨by decide,
   (C3_detect_discontinued_characterization ["A"] c3storeAll 3 "X" (by decide)).2.2⟩

/-! ## Queue processor lemmas -/

theorem mem_insertByCreated {V : Type} (t a : QueueTask V) :
    ∀ (l : List (QueueTask V)), a ∈ insertByCreated t l ↔ a = t ∨ a ∈ l := by
  intro l
  induction l with
  | nil => simp [insertByCreated]
  | cons u us ih =>
      unfold insertByCreated
      by_cases h : t.created_at ≤ u.created_at
      · rw [if_pos h]
        simp [List.mem_cons]
      · rw [if_neg h]
        simp only [List.mem_cons, ih]
        tauto

theorem mem_sortByCreated {V : Type} (a : QueueTask V) :
    ∀ (l : List (QueueTask V)), a ∈ sortByCreated l ↔ a ∈ l := by
  intro l
  induction l with
  | nil => simp [sortByCreated]
  | cons t ts ih =>
      unfold sortByCreated
      rw [mem_insertByCreated, ih]
      simp [List.mem_cons]

theorem lookupKV_keyed_map {α γ : Type} [DecidableEq γ]
    (key : α → γ) (val : γ → Bool) :
    ∀ (l : List α) (v : α), v ∈ l →
    lookupKV (l.map (fun u => (key u, val (key u)))) (key v) =
      some (val (key v)) := by
  intro l
  induction l with
  | nil => intro v hv; cases hv
  | cons u rest ih =>
      intro v hv
      rw [List.map_cons, lookupKV_cons]
      by_cases h : key u = key v
      · rw [if_pos h, h]
      · rw [if_neg h]
        rcases List.mem_cons.mp hv with rfl | hv'
        · exact absurd rfl h
        · exact ih v hv'

theorem multiSet_cons {V : Type} (q : List (QueueTask V)) (i : Nat)
    (ids : List Nat) (st : TStatus) (now : Nat) :
    multiSetStatus (setTaskStatus q i st now) ids st now =
      multiSetStatus q (i :: ids) st now := by
  unfold multiSetStatus setTaskStatus
  rw [List.map_map]
  apply List.map_congr_left
  intro t _
  by_cases h1 : t.id = i
  · by_cases h2 : ids.contains t.id <;>
      simp [Function.comp, h1, h2, List.contains_cons]
  · by_cases h2 : ids.contains t.id <;>
      simp [Function.comp, h1, h2, List.contains_cons,
        fun he : t.id = i => h1 he]

theorem multiSet_append {V : Type} (q : List (QueueTask V))
    (ids₁ ids₂ : List Nat) (st : TStatus) (now : Nat) :
    multiSetStatus (multiSetStatus q ids₁ st now) ids₂ st now =
      multiSetStatus q (ids₁ ++ ids₂) st now := by
  unfold multiSetStatus
  rw [List.map_map]
  apply List.map_congr_left
  intro t _
  by_cases h1 : t.id ∈ ids₁
  · by_cases h2 : t.id ∈ ids₂ <;>
      simp [Function.comp, h1, h2, List.mem_append]
  · by_cases h2 : t.id ∈ ids₂ <;>
      simp [Function.comp, h1, h2, List.mem_append]

theorem fold_status_write (now : Nat) (c : TStatus)
    (R : List (String × Bool)) :
    ∀ (reqs : List PriceReq) (q : List (QueueTask ℚ)),
    (∀ v ∈ reqs, statusOfResult R v.variant_id = c) →
    reqs.foldl (fun q v =>
      setTaskStatus q v.queue_id (statusOfResult R v.variant_id) now) q =
      multiSetStatus q (reqs.map (fun v => v.queue_id)) c now := by
  intro reqs
  induction reqs with
  | nil =>
      intro q _
      unfold multiSetStatus
      simp
  | cons v rest ih =>
      intro q hall
      rw [List.foldl_cons, hall v (List.mem_cons_self _ _), List.map_cons,
        ← multiSet_cons]
      exact ih _ (fun v' hv' => hall v' (List.mem_cons_of_mem _ hv'))

theorem statusOfResult_const (b : Bool) (reqs : List PriceReq)
    (v : PriceReq) (hv : v ∈ reqs) :
    statusOfResult (reqs.map (fun u => (toString u.variant_id, b)))
        v.variant_id =
      (if b then TStatus.completed else TStatus.error) := by
  unfold statusOfResult
  rw [lookupKV_keyed_map (fun u => toString u.variant_id) (fun _ => b) reqs v hv]
  cases b <;> rfl

theorem groups_fold_status (b : Bool) (now : Nat) :
    ∀ (groups : List (Nat × List PriceReq)) (q : List (QueueTask ℚ)),
    groups.foldl (fun q g =>
      g.2.foldl (fun q v =>
        setTaskStatus q v.queue_id
          (statusOfResult (g.2.map (fun u => (toString u.variant_id, b)))
            v.variant_id) now) q) q =
      multiSetStatus q
        ((groups.map (fun g => g.2.map (fun v => v.queue_id))).flatten)
        (if b then TStatus.completed else TStatus.error) now := by
  intro groups
  induction groups with
  | nil =>
      intro q
      unfold multiSetStatus
      simp
  | cons g gs ih =>
      intro q
      rw [List.foldl_cons,
        fold_status_write now _ _ g.2 q (fun v hv => statusOfResult_const b g.2 v hv),
        ih, multiSet_append, List.map_cons, List.flatten_cons]

/-- Equality of price processing under a constant-verdict API with a batch
status write over all fetched queue ids. -/
theorem process_price_const (b : Bool) (env : Option ℚ)
    (mappings : List VariantMapping) (ks : KindState ℚ)
    (batch_size now : Nat) :
    process_price_updates
        (fun reqs _ => reqs.map (fun u => (toString u.variant_id, b)))
        env mappings ks batch_size now =
      { ks with queue := (multiSetStatus ks.queue
          (((groupReqs (get_pending_price_updates mappings ks batch_size)).map
            (fun g => g.2.map (fun v => v.queue_id))).flatten)
          (if b then TStatus.completed else TStatus.error) now) } := by
  unfold process_price_updates
  dsimp only
  congr 1
  exact groups_fold_status b now
    (groupReqs (get_pending_price_updates mappings ks batch_size)) ks.queue

theorem fold_stock_write (now : Nat) (c : TStatus) :
    ∀ (fetched : List FetchedStock) (q : List (QueueTask ℤ)),
    fetched.foldl (fun q u => setTaskStatus q u.queue_id c now) q =
      multiSetStatus q (fetched.map (fun u => u.queue_id)) c now := by
  intro fetched
  induction fetched with
  | nil =>
      intro q
      unfold multiSetStatus
      simp
  | cons u rest ih =>
      intro q
      rw [List.foldl_cons, List.map_cons, ← multiSet_cons]
      exact ih _

/-- Equality of stock processing under a constant-verdict API with a batch
status write over all fetched queue ids. -/
theorem process_stock_const (b : Bool) (location : Option Nat)
    (mappings : List VariantMapping) (ks : KindState ℤ)
    (batch_size now : Nat) :
    process_stock_updates (fun _ _ _ => b) location mappings ks
        batch_size now =
      { ks with queue := (multiSetStatus ks.queue
          ((get_pending_stock_updates mappings ks batch_size).map
            (fun u => u.queue_id))
          (if b then TStatus.completed else TStatus.error) now) } := by
  unfold process_stock_updates
  dsimp only
  congr 1
  cases b
  · exact fold_stock_write now TStatus.error
      (get_pending_stock_updates mappings ks batch_size) ks.queue
  · exact fold_stock_write now TStatus.completed
      (get_pending_stock_updates mappings ks batch_size) ks.queue

theorem lookupKV_some_mem {α β : Type} [DecidableEq α] :
    ∀ (l : List (α × β)) (k : α) (v : β),
    lookupKV l k = some v → (k, v) ∈ l := by
  intro l
  induction l with
  | nil => intro k v h; cases h
  | cons p rest ih =>
      intro k v h
      rw [lookupKV_cons] at h
      by_cases hp : p.1 = k
      · rw [if_pos hp] at h
        have hv : v = p.2 := (Option.some.inj h).symm
        subst hv
        rw [← hp]
        exact List.mem_cons_self _ _
      · rw [if_neg hp] at h
        exact List.mem_cons_of_mem _ (ih k v h)

theorem mem_groupReqs_fold :
    ∀ (l : List FetchedPrice) (acc : List (Nat × List PriceReq))
      (u : FetchedPrice),
    ((∃ g ∈ acc, toPriceReq u ∈ g.2) ∨ u ∈ l) →
    ∃ g ∈ l.foldl (fun acc u =>
        if containsKey acc u.shopify_product_id then
          acc.map (fun g =>
            if g.1 = u.shopify_product_id then (g.1, g.2 ++ [toPriceReq u])
            else g)
        else acc ++ [(u.shopify_product_id, [toPriceReq u])]) acc,
      toPriceReq u ∈ g.2 := by
  intro l
  induction l with
  | nil =>
      intro acc u h
      rcases h with h | h
      · exact h
      · cases h
  | cons x xs ih =>
      intro acc u h
      rw [List.foldl_cons]
      apply ih
      rcases h with ⟨g, hg, hr⟩ | h
      · left
        by_cases hc : containsKey acc x.shopify_product_id
        · rw [if_pos hc]
          refine ⟨if g.1 = x.shopify_product_id
            then (g.1, g.2 ++ [toPriceReq x]) else g, List.mem_map_of_mem _ hg, ?_⟩
          by_cases hgx : g.1 = x.shopify_product_id
          · rw [if_pos hgx]
            exact List.mem_append_left _ hr
          · rw [if_neg hgx]
            exact hr
        · rw [if_neg hc]
          exact ⟨g, List.mem_append_left _ hg, hr⟩
      · rcases List.mem_cons.mp h with rfl | h'
        · left
          by_cases hc : containsKey acc u.shopify_product_id
          · rw [if_pos hc]
            unfold containsKey at hc
            cases hl : lookupKV acc u.shopify_product_id with
            | none => rw [hl] at hc; cases hc
            | some L =>
                have hmem := lookupKV_some_mem acc u.shopify_product_id L hl
                refine ⟨(u.shopify_product_id, L ++ [toPriceReq u]), ?_, ?_⟩
                · have himg := List.mem_map_of_mem (fun g =>
                    if g.1 = u.shopify_product_id
                    then (g.1, g.2 ++ [toPriceReq u]) else g) hmem
                  simpa using himg
                · exact List.mem_append_right _ (List.mem_singleton.mpr rfl)
          · rw [if_neg hc]
            exact ⟨(u.shopify_product_id, [toPriceReq u]),
              List.mem_append_right _ (List.mem_singleton.mpr rfl),
              List.mem_singleton.mpr rfl⟩
        · right
          exact h'

theorem mem_groupReqs (fetched : List FetchedPrice) (u : FetchedPrice)
    (h : u ∈ fetched) :
    ∃ g ∈ groupReqs fetched, toPriceReq u ∈ g.2 :=
  mem_groupReqs_fold fetched [] u (Or.inr h)

theorem mem_price_writeIds (fetched : List FetchedPrice) (u : FetchedPrice)
    (h : u ∈ fetched) :
    u.queue_id ∈
      ((groupReqs fetched).map (fun g => g.2.map (fun v => v.queue_id))).flatten := by
  rcases mem_groupReqs fetched u h with ⟨g, hg, hr⟩
  rw [List.mem_flatten]
  exact ⟨g.2.map (fun v => v.queue_id), List.mem_map_of_mem _ hg,
    List.mem_map_of_mem (fun v => v.queue_id) hr⟩

theorem mem_get_pending_price (mappings : List VariantMapping)
    (ks : KindState ℚ) (batch_size : Nat) (u : FetchedPrice)
    (h : u ∈ get_pending_price_updates mappings ks batch_size) :
    ∃ t ∈ ks.queue, pendingOrError t = true ∧ t.id = u.queue_id ∧
      t.variant_mapping_id = u.variant_mapping_id ∧
      (findMapping mappings u.variant_mapping_id).isSome = true := by
  unfold get_pending_price_updates at h
  have h1 := List.take_subset _ _ h
  rcases List.mem_filterMap.mp h1 with ⟨t, ht, hf⟩
  rw [mem_sortByCreated] at ht
  rcases List.mem_filter.mp ht with ⟨htq, htp⟩
  rcases Option.map_eq_some'.mp hf with ⟨m, hm, hmk⟩
  refine ⟨t, htq, htp, ?_, ?_, ?_⟩
  · rw [← hmk]
  · rw [← hmk]
  · rw [← hmk]
    dsimp only
    rw [hm]
    rfl

theorem mem_get_pending_stock (mappings : List VariantMapping)
    (ks : KindState ℤ) (batch_size : Nat) (u : FetchedStock)
    (h : u ∈ get_pending_stock_updates mappings ks batch_size) :
    ∃ t ∈ ks.queue, pendingOrError t = true ∧ t.id = u.queue_id ∧
      t.variant_mapping_id = u.variant_mapping_id ∧
      (findMapping mappings u.variant_mapping_id).isSome = true := by
  unfold get_pending_stock_updates at h
  have h1 := List.take_subset _ _ h
  rcases List.mem_filterMap.mp h1 with ⟨t, ht, hf⟩
  rw [mem_sortByCreated] at ht
  rcases List.mem_filter.mp ht with ⟨htq, htp⟩
  rcases Option.map_eq_some'.mp hf with ⟨m, hm, hmk⟩
  refine ⟨t, htq, htp, ?_, ?_, ?_⟩
  · rw [← hmk]
  · rw [← hmk]
  · rw [← hmk]
    dsimp only
    rw [hm]
    rfl

/-- C4. Against an always-success API every fetched task (price and stock)
ends the cycle with status completed; against an always-failure API every
fetched task ends with status error, and each such task still satisfies the
pending/error selection predicate with a resolvable variant-mapping join, so
it is picked up again by the next cycle's fetch — no task is silently
dropped. -/
theorem C4_processing_terminal_statuses (env : Option ℚ)
    (location : Option Nat) (mappings : List VariantMapping)
    (ksp : KindState ℚ) (kss : KindState ℤ) (batch_size now : Nat) :
    (∀ u ∈ get_pending_price_updates mappings ksp batch_size,
      ∀ t ∈ (process_price_updates alwaysSuccessPriceApi env mappings ksp
        batch_size now).queue,
        t.id = u.queue_id → t.status = TStatus.completed) ∧
    (∀ u ∈ get_pending_price_updates mappings ksp batch_size,
      ∀ t ∈ (process_price_updates alwaysFailPriceApi env mappings ksp
        batch_size now).queue,
        t.id = u.queue_id → t.status = TStatus.error) ∧
    (∀ u ∈ get_pending_price_updates mappings ksp batch_size,
      ∃ t ∈ (process_price_updates alwaysFailPriceApi env mappings ksp
        batch_size now).queue,
        t.id = u.queue_id ∧ t.status = TStatus.error ∧
        pendingOrError t = true ∧
        (findMapping mappings t.variant_mapping_id).isSome = true) ∧
    (∀ u ∈ get_pending_stock_updates mappings kss batch_size,
      ∀ t ∈ (process_stock_updates alwaysSuccessStockApi location mappings kss
        batch_size now).queue,
        t.id = u.queue_id → t.status = TStatus.completed) ∧
    (∀ u ∈ get_pending_stock_updates mappings kss batch_size,
      ∀ t ∈ (process_stock_updates alwaysFailStockApi location mappings kss
        batch_size now).queue,
        t.id = u.queue_id → t.status = TStatus.error) ∧
    (∀ u ∈ get_pending_stock_updates mappings kss batch_size,
      ∃ t ∈ (process_stock_updates alwaysFailStockApi location mappings kss
        batch_size now).queue,
        t.id = u.queue_id ∧ t.status = TStatus.error ∧
        pendingOrError t = true ∧
        (findMapping mappings t.variant_mapping_id).isSome = true) := by
  refine ⟨?_, ?_, ?_, ?_, ?_, ?_⟩
  · intro u hu t ht hid
    unfold alwaysSuccessPriceApi at ht
    rw [process_price_const] at ht
    have ht' : t ∈ multiSetStatus ksp.queue
        (((groupReqs (get_pending_price_updates mappings ksp batch_size)).map
          (fun g => g.2.map (fun v => v.queue_id))).flatten)
        TStatus.completed now := by simpa using ht
    rcases List.mem_map.mp ht' with ⟨t₀, ht₀, himg⟩
    have hid0 : t₀.id = t.id := by
      rw [← himg]
      split <;> rfl
    have hw := mem_price_writeIds _ u hu
    have hcont : (((groupReqs (get_pending_price_updates mappings ksp
        batch_size)).map (fun g => g.2.map (fun v => v.queue_id))).flatten).contains
        t₀.id = true := List.elem_iff.mpr (by rw [hid0, hid]; exact hw)
    rw [hcont] at himg
    rw [if_pos rfl] at himg
    rw [← himg]
  · intro u hu t ht hid
    unfold alwaysFailPriceApi at ht
    rw [process_price_const] at ht
    have ht' : t ∈ multiSetStatus ksp.queue
        (((groupReqs (get_pending_price_updates mappings ksp batch_size)).map
          (fun g => g.2.map (fun v => v.queue_id))).flatten)
        TStatus.error now := by simpa using ht
    rcases List.mem_map.mp ht' with ⟨t₀, ht₀, himg⟩
    have hid0 : t₀.id = t.id := by
      rw [← himg]
      split <;> rfl
    have hw := mem_price_writeIds _ u hu
    have hcont : (((groupReqs (get_pending_price_updates mappings ksp
        batch_size)).map (fun g => g.2.map (fun v => v.queue_id))).flatten).contains
        t₀.id = true := List.elem_iff.mpr (by rw [hid0, hid]; exact hw)
    rw [hcont] at himg
    rw [if_pos rfl] at himg
    rw [← himg]
  · intro u hu
    rcases mem_get_pending_price mappings ksp batch_size u hu with
      ⟨t₀, ht₀, hpe, hid, hvm, hmap⟩
    unfold alwaysFailPriceApi
    rw [process_price_const]
    have hw := mem_price_writeIds _ u hu
    have hcont : (((groupReqs (get_pending_price_updates mappings ksp
        batch_size)).map (fun g => g.2.map (fun v => v.queue_id))).flatten).contains
        t₀.id = true := List.elem_iff.mpr (by rw [hid]; exact hw)
    have hmem2 := List.mem_map_of_mem (fun t =>
      if (((groupReqs (get_pending_price_updates mappings ksp
          batch_size)).map (fun g => g.2.map (fun v => v.queue_id))).flatten).contains
          t.id
      then { t with status := TStatus.error, processed_at := some now }
      else t) ht₀
    dsimp only at hmem2
    rw [hcont] at hmem2
    rw [if_pos rfl] at hmem2
    refine ⟨{ t₀ with status := TStatus.error, processed_at := some now },
      hmem2, hid, rfl, rfl, ?_⟩
    show (findMapping mappings t₀.variant_mapping_id).isSome = true
    rw [hvm]
    exact hmap
  · intro u hu t ht hid
    unfold alwaysSuccessStockApi at ht
    rw [process_stock_const] at ht
    have ht' : t ∈ multiSetStatus kss.queue
        ((get_pending_stock_updates mappings kss batch_size).map
          (fun u => u.queue_id)) TStatus.completed now := by simpa using ht
    rcases List.mem_map.mp ht' with ⟨t₀, ht₀, himg⟩
    have hid0 : t₀.id = t.id := by
      rw [← himg]
      split <;> rfl
    have hw : u.queue_id ∈ (get_pending_stock_updates mappings kss
        batch_size).map (fun u => u.queue_id) :=
      List.mem_map_of_mem (fun u => u.queue_id) hu
    have hcont : ((get_pending_stock_updates mappings kss batch_size).map
        (fun u => u.queue_id)).contains t₀.id = true :=
      List.elem_iff.mpr (by rw [hid0, hid]; exact hw)
    rw [hcont] at himg
    rw [if_pos rfl] at himg
    rw [← himg]
  · intro u hu t ht hid
    unfold alwaysFailStockApi at ht
    rw [process_stock_const] at ht
    have ht' : t ∈ multiSetStatus kss.queue
        ((get_pending_stock_updates mappings kss batch_size).map
          (fun u => u.queue_id)) TStatus.error now := by simpa using ht
    rcases List.mem_map.mp ht' with ⟨t₀, ht₀, himg⟩
    have hid0 : t₀.id = t.id := by
      rw [← himg]
      split <;> rfl
    have hw : u.queue_id ∈ (get_pending_stock_updates mappings kss
        batch_size).map (fun u => u.queue_id) :=
      List.mem_map_of_mem (fun u => u.queue_id) hu
    have hcont : ((get_pending_stock_updates mappings kss batch_size).map
        (fun u => u.queue_id)).contains t₀.id = true :=
      List.elem_iff.mpr (by rw [hid0, hid]; exact hw)
    rw [hcont] at himg
    rw [if_pos rfl] at himg
    rw [← himg]
  · intro u hu
    rcases mem_get_pending_stock mappings kss batch_size u hu with
      ⟨t₀, ht₀, hpe, hid, hvm, hmap⟩
    unfold alwaysFailStockApi
    rw [process_stock_const]
    have hw : u.queue_id ∈ (get_pending_stock_updates mappings kss
        batch_size).map (fun u => u.queue_id) :=
      List.mem_map_of_mem (fun u => u.queue_id) hu
    have hcont : ((get_pending_stock_updates mappings kss batch_size).map
        (fun u => u.queue_id)).contains t₀.id = true :=
      List.elem_iff.mpr (by rw [hid]; exact hw)
    have hmem2 := List.mem_map_of_mem (fun t =>
      if ((get_pending_stock_updates mappings kss batch_size).map
          (fun u => u.queue_id)).contains t.id
      then { t with status := TStatus.error, processed_at := some now }
      else t) ht₀
    dsimp only at hmem2
    rw [hcont] at hmem2
    rw [if_pos rfl] at hmem2
    refine ⟨{ t₀ with status := TStatus.error, processed_at := some now },
      hmem2, hid, rfl, rfl, ?_⟩
    show (findMapping mappings t₀.variant_mapping_id).isSome = true
    rw [hvm]
    exact hmap

/-- C4 witness: a single pending price task over a resolvable mapping is
fetched and reaches completed under the always-success API. -/
theorem C4_witness :
    wFetchedP ∈ get_pending_price_updates wMappings wKSp 100 ∧
    wDoneTaskP ∈ (process_price_updates alwaysSuccessPriceApi none wMappings
      wKSp 100 9).queue ∧
    wDoneTaskP.status = TStatus.completed :=
  have h1 : wFetchedP ∈ get_pending_price_updates wMappings wKSp 100 := by
    norm_num [get_pending_price_updates, sortByCreated, insertByCreated,
      findMapping, pendingOrError, wMappings, wKSp, wTaskP, wFetchedP,
      List.filter, List.filterMap, List.find?, List.take]
  have h2 : wDoneTaskP ∈ (process_price_updates alwaysSuccessPriceApi none
      wMappings wKSp 100 9).queue := by
    norm_num [process_price_updates, get_pending_price_updates, sortByCreated,
      insertByCreated, findMapping, pendingOrError, wMappings, wKSp, wTaskP,
      wDoneTaskP, groupReqs, toPriceReq, statusOfResult, setTaskStatus,
      priceMargin, alwaysSuccessPriceApi, containsKey, lookupKV,
      List.filter, List.filterMap, List.find?, List.take, List.foldl]
  ⟨h1, h2,
    (C4_processing_terminal_statuses none none wMappings wKSp wKSs 100 9).1
      wFetchedP h1 wDoneTaskP h2 rfl⟩

/-- C8. The queued new_price is treated as a cost: the request item built by
process_price_updates passes it as cost, and the price the bulk update
applies to each variant is that cost multiplied by the configured margin and
rounded to two decimals (compareAtPrice equal to it at zero discount, the
raw cost attached unchanged). The margin value is the processor's
configuration, read from PRICE_MARGIN with default 2.5; the client applies
exactly the margin the processor hands it. -/
theorem C8_applied_price_is_cost_times_margin (env : Option ℚ)
    (u : FetchedPrice) :
    priceMargin none = 5/2 ∧
    (toPriceReq u).cost = u.new_price ∧
    (variantPayload (priceMargin env) 0 (toPriceReq u)).price =
      round2 (u.new_price * priceMargin env) ∧
    (variantPayload (priceMargin env) 0 (toPriceReq u)).compareAtPrice =
      round2 (u.new_price * priceMargin env) ∧
    (variantPayload (priceMargin env) 0 (toPriceReq u)).cost = u.new_price ∧
    bulkPriceVariantsData [toPriceReq u] (priceMargin env) 0 =
      [variantPayload (priceMargin env) 0 (toPriceReq u)] := by
  refine ⟨rfl, rfl, ?_, ?_, ?_, rfl⟩ <;>
    simp [variantPayload, toPriceReq, lt_irrefl]

/-- C10. ShopifyAPI.bulk_price_update is total and returns one verdict per
requested variant: the verdict keys are exactly the input variant ids (one
entry each when the input ids are distinct); an exception or a response with
userErrors maps every requested variant to False; and on a clean response a
variant maps to True exactly when its id appears as the last path component
of one of the returned variant gids. -/
theorem C10_bulk_price_update_verdicts (variant_updates : List PriceReq)
    (outcome : BulkOutcome)
    (hnd : (variant_updates.map (fun u => toString u.variant_id)).Nodup) :
    ((bulk_price_update variant_updates outcome).map Prod.fst =
      variant_updates.map (fun u => toString u.variant_id)) ∧
    ((bulk_price_update variant_updates outcome).map Prod.fst).Nodup ∧
    (∀ p ∈ bulk_price_update variant_updates BulkOutcome.exn, p.2 = false) ∧
    (∀ errs gids, errs ≠ [] →
      ∀ p ∈ bulk_price_update variant_updates (BulkOutcome.ok errs gids),
        p.2 = false) ∧
    (∀ gids, ∀ u ∈ variant_updates,
      lookupKV (bulk_price_update variant_updates (BulkOutcome.ok [] gids))
          (toString u.variant_id) =
        some (gids.any (fun g => lastComponent g == toString u.variant_id))) := by
  have hkeys : ∀ o, (bulk_price_update variant_updates o).map Prod.fst =
      variant_updates.map (fun u => toString u.variant_id) := by
    intro o
    cases o with
    | exn => simp [bulk_price_update, List.map_map, Function.comp]
    | ok errs gids =>
        unfold bulk_price_update
        by_cases he : errs = [] <;>
          simp [he, List.map_map, Function.comp]
  refine ⟨hkeys outcome, ?_, ?_, ?_, ?_⟩
  · rw [hkeys outcome]
    exact hnd
  · intro p hp
    unfold bulk_price_update at hp
    rcases List.mem_map.mp hp with ⟨v, hv, rfl⟩
    rfl
  · intro errs gids hne p hp
    unfold bulk_price_update at hp
    dsimp only at hp
    rw [if_neg hne] at hp
    rcases List.mem_map.mp hp with ⟨v, hv, rfl⟩
    rfl
  · intro gids u hu
    unfold bulk_price_update
    dsimp only
    rw [if_pos rfl]
    exact lookupKV_keyed_map (fun u => toString u.variant_id)
      (fun s => gids.any (fun g => lastComponent g == s)) variant_updates u hu

/-- C10 witness: the verdict-key equality at a one-request input. -/
theorem C10_witness :
    (([⟨10, 100, 5, 1⟩] : List PriceReq).map
      (fun u => toString u.variant_id)).Nodup ∧
    ((bulk_price_update [⟨10, 100, 5, 1⟩] BulkOutcome.exn).map Prod.fst =
      ([⟨10, 100, 5, 1⟩] : List PriceReq).map (fun u => toString u.variant_id)) :=
  ⟨by simp,
   (C10_bulk_price_update_verdicts [⟨10, 100, 5, 1⟩] BulkOutcome.exn
     (by simp)).1⟩

end ShopifySync
